import Mathlib

/-!
Shallow embedding of the coordinate post-processing and crop-planning
pipeline of the object-tracking repository (src/export_final.py,
src/export_thread.py, src/ui/export_thread.py).

Modelling conventions:
* Python ints are modelled by ℤ; Python floats by ℚ (the decimal literals
  0.8, 1.5, 0.01, 1.777 ... of the source are modelled by the exact
  rationals they denote; every threshold comparison in the source is far
  coarser than the 2⁻⁵² error of binary floats, so no claim depends on the
  difference).
* Python `//` on ints is floor division, `Int.fdiv`.
* Python `int(f)` on a float truncates toward zero, modelled by `pyInt`.
* `np.median` sorts and averages the middle pair; `np.percentile(_, 75)`
  uses numpy's default linear interpolation; both are defined below over ℚ.
* Fallible code (ExportThread.run reporting through `export_error`) is
  modelled with `Except String`.
-/

/-- Python `int(q)` on a float: truncation toward zero. -/
def pyInt (q : ℚ) : ℤ := if 0 ≤ q then ⌊q⌋ else ⌈q⌉

/-- One tracked bounding box, a row `frame,x,y,w,h` of the coordinates CSV
(src/export_final.py `load_coordinates`). -/
structure Coord where
  frame : ℤ
  x : ℤ
  y : ℤ
  w : ℤ
  h : ℤ
deriving DecidableEq, Repr

/-- One per-frame crop rectangle (`crop_x, crop_y, crop_w, crop_h`);
the emitted plan list is indexed by output frame. -/
structure CropRect where
  x : ℤ
  y : ℤ
  w : ℤ
  h : ℤ
deriving DecidableEq, Repr

/-- The crop-bounds invariant of the spec data model: the rectangle lies
inside the `video_width × video_height` frame. -/
def rectInBounds (vw vh : ℤ) (p : CropRect) : Prop :=
  0 ≤ p.x ∧ 0 ≤ p.y ∧ p.x + p.w ≤ vw ∧ p.y + p.h ≤ vh

instance (vw vh : ℤ) (p : CropRect) : Decidable (rectInBounds vw vh p) :=
  inferInstanceAs
    (Decidable (0 ≤ p.x ∧ 0 ≤ p.y ∧ p.x + p.w ≤ vw ∧ p.y + p.h ≤ vh))

/-- Insertion step of the ascending sort used to model `np.sort`. -/
def insertSorted (q : ℚ) : List ℚ → List ℚ
  | [] => [q]
  | x :: xs => if q ≤ x then q :: x :: xs else x :: insertSorted q xs

/-- Ascending sort of a rational list (sorting algorithm itself is
irrelevant to the source; only the sorted order matters). -/
def sortQ (l : List ℚ) : List ℚ := l.foldr insertSorted []

/-- `np.median`: middle element of the sorted list, or the mean of the two
middle elements for even length.  (Empty input is NaN in numpy and never
reached by the claims; modelled as 0.) -/
def npMedian (l : List ℚ) : ℚ :=
  let s := sortQ l
  let n := l.length
  if n % 2 = 1 then s.getD (n / 2) 0
  else (s.getD (n / 2 - 1) 0 + s.getD (n / 2) 0) / 2

/-- `np.percentile(l, 75)` with numpy's default linear interpolation:
virtual index `0.75 * (n-1)`, interpolating between the surrounding sorted
entries. -/
def npPercentile75 (l : List ℚ) : ℚ :=
  let s := sortQ l
  let n := l.length
  let pos : ℚ := 3 * ((n : ℚ) - 1) / 4
  let i : ℕ := (⌊pos⌋).toNat
  let frac : ℚ := pos - (i : ℚ)
  s.getD i 0 + frac * (s.getD (i + 1) 0 - s.getD i 0)

/-- `np.mean`: sum over length. -/
def npMean (l : List ℚ) : ℚ := l.sum / (l.length : ℚ)

/-- The sliding window `l[max(0, i - sw//2) : min(len(l), i + sw//2 + 1)]`
used by every filtering/smoothing loop of the source. -/
def winSlice (l : List ℚ) (sw : ℤ) (i : ℕ) : List ℚ :=
  let start : ℤ := max 0 ((i : ℤ) - sw.fdiv 2)
  let stop : ℤ := min (l.length : ℤ) ((i : ℤ) + sw.fdiv 2 + 1)
  (l.drop start.toNat).take (stop - start).toNat

/-- Position filter at index `i` (x and y): replace by the window median
when more than 200 px away from it (src/export_final.py lines 123-137,
203-221; identical loops in both export threads). -/
def medFilterAt (l : List ℚ) (sw : ℤ) (i : ℕ) : ℚ :=
  let win := winSlice l sw i
  let m := npMedian win
  if |l.getD i 0 - m| > 200 then m else l.getD i 0

/-- Size filter at index `i` (w and h): replace by the window median when
the value exceeds 1.5 × the window's 75th percentile
(src/export_final.py lines 139-152, 227-249). -/
def sizeFilterAt (l : List ℚ) (sw : ℤ) (i : ℕ) : ℚ :=
  let win := winSlice l sw i
  let m := npMedian win
  let p := npPercentile75 win
  if l.getD i 0 > p * (3 / 2) then m else l.getD i 0

/-- The outlier-rejection pass of
`stabilize_and_smooth_coordinates_ema` (src/export_final.py lines
108-152): one loop over `range(len(xs))` producing the four filtered
arrays.  The same per-index computations appear in the two loops of
`stabilize_and_smooth_coordinates` (lines 199-249). -/
def outlier_filter (sw : ℤ) (xs ys ws hs : List ℚ) :
    List ℚ × List ℚ × List ℚ × List ℚ :=
  let n := xs.length
  ((List.range n).map fun i => medFilterAt xs sw i,
   (List.range n).map fun i => medFilterAt ys sw i,
   (List.range n).map fun i => sizeFilterAt ws sw i,
   (List.range n).map fun i => sizeFilterAt hs sw i)

/-- EMA recurrence after the first element:
`ema = alpha * v + (1 - alpha) * ema` (src/export_final.py lines 166-173). -/
def emaGo (alpha : ℚ) (prev : ℚ) : List ℚ → List ℚ
  | [] => []
  | v :: vs =>
    let e := alpha * v + (1 - alpha) * prev
    e :: emaGo alpha e vs

/-- EMA over a full array: the first element is emitted unsmoothed, then
the recurrence runs (src/export_final.py lines 155-173). -/
def emaScan (alpha : ℚ) : List ℚ → List ℚ
  | [] => []
  | v :: vs => v :: emaGo alpha v vs

/-- Reassemble coordinate rows from the frame list and four (rational)
value arrays, truncating each value with `int(...)` as the source does. -/
def mkCoords : List ℤ → List ℚ → List ℚ → List ℚ → List ℚ → List Coord
  | f :: fs, a :: as_, b :: bs, c :: cs, d :: ds =>
    ⟨f, pyInt a, pyInt b, pyInt c, pyInt d⟩ :: mkCoords fs as_ bs cs ds
  | _, _, _, _, _ => []

/-- `stabilize_and_smooth_coordinates_ema` (src/export_final.py lines
87-183): outlier filter, then per-dimension EMA with
`alpha = 2 / (smooth_window + 1)`. -/
def stabilize_and_smooth_coordinates_ema (coords : List Coord) (sw : ℤ) :
    List Coord :=
  if coords.length < 2 then coords
  else
    let frames := coords.map (·.frame)
    let xs : List ℚ := coords.map fun c => (c.x : ℚ)
    let ys : List ℚ := coords.map fun c => (c.y : ℚ)
    let ws : List ℚ := coords.map fun c => (c.w : ℚ)
    let hs : List ℚ := coords.map fun c => (c.h : ℚ)
    let alpha : ℚ := 2 / ((sw : ℚ) + 1)
    let f := outlier_filter sw xs ys ws hs
    mkCoords frames (emaScan alpha f.1) (emaScan alpha f.2.1)
      (emaScan alpha f.2.2.1) (emaScan alpha f.2.2.2)

/-- `stabilize_and_smooth_coordinates` (src/export_final.py lines
186-272): sequences shorter than the window are returned unchanged;
otherwise outlier filtering followed by a rolling mean on all four
dimensions. -/
def stabilize_and_smooth_coordinates (coords : List Coord) (sw : ℤ) :
    List Coord :=
  if (coords.length : ℤ) < sw then coords
  else
    let frames := coords.map (·.frame)
    let xs : List ℚ := coords.map fun c => (c.x : ℚ)
    let ys : List ℚ := coords.map fun c => (c.y : ℚ)
    let ws : List ℚ := coords.map fun c => (c.w : ℚ)
    let hs : List ℚ := coords.map fun c => (c.h : ℚ)
    let xsf := (List.range xs.length).map fun i => medFilterAt xs sw i
    let ysf := (List.range xs.length).map fun i => medFilterAt ys sw i
    let wsf := (List.range ws.length).map fun i => sizeFilterAt ws sw i
    let hsf := (List.range ws.length).map fun i => sizeFilterAt hs sw i
    (List.range frames.length).map fun i =>
      ⟨frames.getD i 0,
       pyInt (npMean (winSlice xsf sw i)),
       pyInt (npMean (winSlice ysf sw i)),
       pyInt (npMean (winSlice wsf sw i)),
       pyInt (npMean (winSlice hsf sw i))⟩

/-- One linearly interpolated box at gap position `j` between tracked boxes
`a` and `b`: `ratio = j / (gap_size + 1)`,
`value = int(v_a + (v_b - v_a) * ratio)` (src/export_final.py lines 68-77;
identical in both export threads).  `int(...)` truncates toward zero. -/
def synthBox (a b : Coord) (j : ℤ) : Coord :=
  let gs : ℤ := b.frame - a.frame - 1
  let rt : ℚ := (j : ℚ) / ((gs : ℚ) + 1)
  ⟨a.frame + j,
   pyInt ((a.x : ℚ) + ((b.x : ℚ) - (a.x : ℚ)) * rt),
   pyInt ((a.y : ℚ) + ((b.y : ℚ) - (a.y : ℚ)) * rt),
   pyInt ((a.w : ℚ) + ((b.w : ℚ) - (a.w : ℚ)) * rt),
   pyInt ((a.h : ℚ) + ((b.h : ℚ) - (a.h : ℚ)) * rt)⟩

/-- The interpolated boxes strictly between adjacent tracked boxes `a`
and `b` (the inner `for j in range(1, gap_size + 1)` loop). -/
def interpBetween (a b : Coord) : List Coord :=
  (List.range (b.frame - a.frame - 1).toNat).map fun j : ℕ =>
    synthBox a b ((j : ℤ) + 1)

/-- The main interpolation loop over adjacent pairs, with the final
`result.append(coords[-1])`. -/
def expandAux : Coord → List Coord → List Coord
  | a, [] => [a]
  | a, b :: rest => (a :: interpBetween a b) ++ expandAux b rest

/-- The gap scan of `interpolate_gaps` (src/export_final.py lines 40-44):
true iff some adjacent pair has `gap_size > 0`. -/
def hasGaps : List Coord → Bool
  | a :: b :: rest => decide (b.frame - a.frame - 1 > 0) || hasGaps (b :: rest)
  | _ => false

/-- `interpolate_gaps` (src/export_final.py lines 31-84): inputs shorter
than 2 and inputs without gaps are returned unchanged; otherwise the full
expansion with linear interpolation runs. -/
def interpolate_gaps (coords : List Coord) : List Coord :=
  if coords.length < 2 then coords
  else if hasGaps coords = false then coords
  else
    match coords with
    | [] => []
    | a :: rest => expandAux a rest

/-- `ExportThread._interpolate_gaps` (src/export_thread.py lines 215-242):
same loop, without the no-gap early return. -/
def ExportThread_interpolate_gaps (coords : List Coord) : List Coord :=
  if coords.length < 2 then coords
  else
    match coords with
    | [] => []
    | a :: rest => expandAux a rest

/-- `ExportThread._interpolate_gaps` (src/ui/export_thread.py lines
414-441): character-identical to the src/export_thread.py copy. -/
def UI_ExportThread_interpolate_gaps (coords : List Coord) : List Coord :=
  if coords.length < 2 then coords
  else
    match coords with
    | [] => []
    | a :: rest => expandAux a rest

/-- Python `str.lower()` on the character list modelling the string. -/
def pyLower (s : List Char) : List Char := s.map Char.toLower

/-- Python `str.split(sep)` for a one-character separator
(`"".split(c) = [""]`, `":".split(":") = ["", ""]`). -/
def pySplit (sep : Char) : List Char → List (List Char)
  | [] => [[]]
  | c :: cs =>
    if c = sep then [] :: pySplit sep cs
    else
      match pySplit sep cs with
      | [] => [[c]]
      | p :: ps => (c :: p) :: ps

/-- Digit-string value used by `pyParseInt`. -/
def digitsVal (s : List Char) : Option ℕ :=
  if s = [] then none
  else if s.all Char.isDigit then
    some (s.foldl (fun a c => a * 10 + (c.toNat - 48)) 0)
  else none

/-- Python `int(str)`: optional sign followed by decimal digits, `None`
standing for the `ValueError` raise.  (Python additionally strips
surrounding whitespace and allows inner underscores; no claim involves
such strings.) -/
def pyParseInt (s : List Char) : Option ℤ :=
  match s with
  | [] => none
  | c :: cs =>
    if c = Char.ofNat 45 then (digitsVal cs).map fun n => -(n : ℤ)
    else if c = Char.ofNat 43 then (digitsVal cs).map fun n => (n : ℤ)
    else (digitsVal (c :: cs)).map fun n => (n : ℤ)

/-- `parse_aspect_ratio` (src/export_final.py lines 275-316; the pure
return values of the copy in src/ui/export_thread.py lines 15-54 are
identical, it only drops the two WARNING prints).  `none` models both the
`'auto'` sentinel and the fallback on parse failure (the Python `None`);
the `try/except` around `map(int, split)` and the ratio division is
modelled by the `Option` failures, including a zero second component
(`ZeroDivisionError`). -/
def parse_aspect_ratio (s : List Char) : Option (ℤ × ℤ × ℚ) :=
  let l := pyLower s
  if l = "auto".data then none
  else if l = "instagram".data ∨ l = "4:5".data then some (1080, 1350, 4 / 5)
  else if l = "square".data ∨ l = "1:1".data then some (1080, 1080, 1)
  else if l = "9:16".data ∨ l = "iphone".data then some (1080, 1920, 9 / 16)
  else if l = "16:9".data ∨ l = "landscape".data then some (1920, 1080, 1777 / 1000)
  else if s.contains (Char.ofNat 58) then
    match pySplit (Char.ofNat 58) s with
    | [a, b] =>
      match pyParseInt a, pyParseInt b with
      | some wr, some hr =>
        if hr = 0 then none
        else
          let q : ℚ := (wr : ℚ) / (hr : ℚ)
          if q < 1 then some (pyInt ((1350 : ℚ) * q), 1350, q)
          else some (1920, pyInt ((1920 : ℚ) / q), q)
      | _, _ => none
    | _ => none
  else none

/-- Stage 1 of `calculate_adaptive_crop` (src/export_final.py lines
334-350): required size from the margin-inflated box, floored at the
minimum dimensions, then enlarged along the limiting dimension to hit the
target ratio exactly. -/
def adaptStage1 (r : ℚ) (minW minH : ℤ) (m : ℚ) (w h : ℤ) : ℤ × ℤ :=
  let rw := max (pyInt ((w : ℚ) * m)) minW
  let rh := max (pyInt ((h : ℚ) * m)) minH
  if (rw : ℚ) / (rh : ℚ) > r then (rw, pyInt ((rw : ℚ) / r))
  else (pyInt ((rh : ℚ) * r), rh)

/-- `if crop_w > video_width` clamp of `calculate_adaptive_crop`
(src/export_final.py lines 353-355). -/
def adaptClampW (r : ℚ) (vw : ℤ) (p : ℤ × ℤ) : ℤ × ℤ :=
  if p.1 > vw then (vw, pyInt ((vw : ℚ) / r)) else p

/-- `if crop_h > video_height` clamp of `calculate_adaptive_crop`
(src/export_final.py lines 356-358). -/
def adaptClampH (r : ℚ) (vh : ℤ) (p : ℤ × ℤ) : ℤ × ℤ :=
  if p.2 > vh then (pyInt ((vh : ℚ) * r), vh) else p

/-- The `0.01`-tolerance ratio recompute of `calculate_adaptive_crop`
(src/export_final.py lines 364-376). -/
def adaptTolerance (r : ℚ) (vw vh : ℤ) (p : ℤ × ℤ) : ℤ × ℤ :=
  if |(p.1 : ℚ) / (p.2 : ℚ) - r| > 1 / 100 then
    if p.1 = vw then
      (p.1,
       let c := pyInt ((p.1 : ℚ) / r)
       if c > vh then vh else c)
    else
      ((let c := pyInt ((p.2 : ℚ) * r)
        if c > vw then vw else c),
       p.2)
  else p

/-- The crop-size stages of `calculate_adaptive_crop`
(src/export_final.py lines 334-376): margin-inflated required size,
ratio-exact enlargement, clamping to the video with re-derivation of the
other dimension (including the final `min` pair of lines 361-362), and
the `0.01`-tolerance recompute. -/
def adaptiveSize (r : ℚ) (vw vh : ℤ) (m : ℚ) (minW minH : ℤ) (w h : ℤ) :
    ℤ × ℤ :=
  let s1 := adaptStage1 r minW minH m w h
  let s2 := adaptClampW r vw s1
  let s3 := adaptClampH r vh s2
  let s4 : ℤ × ℤ := (min s3.1 vw, min s3.2 vh)
  adaptTolerance r vw vh s4

/-- `calculate_adaptive_crop` (src/export_final.py lines 319-394, and the
identical copy in src/ui/export_thread.py lines 57-110): the adaptive
crop size, centered on the box and clamped into the video. -/
def calculate_adaptive_crop (x y w h : ℤ) (r : ℚ) (vw vh : ℤ) (m : ℚ)
    (minW minH : ℤ) : ℤ × ℤ × ℤ × ℤ :=
  let s := adaptiveSize r vw vh m minW minH w h
  let cx0 := x + w.fdiv 2 - s.1.fdiv 2
  let cy0 := y + h.fdiv 2 - s.2.fdiv 2
  let cx1 := if cx0 < 0 then 0 else cx0
  let cy1 := if cy0 < 0 then 0 else cy0
  let cx2 := if cx1 + s.1 > vw then vw - s.1 else cx1
  let cy2 := if cy1 + s.2 > vh then vh - s.2 else cy1
  (cx2, cy2, s.1, s.2)

/-- `calculate_fixed_crop` (src/export_final.py lines 397-420): constant
`target_w × target_h` crop centered on the box, shifted back inside the
video by the two pairs of boundary ifs. -/
def calculate_fixed_crop (x y w h tw th vw vh : ℤ) : ℤ × ℤ × ℤ × ℤ :=
  let cx0 := x + w.fdiv 2 - tw.fdiv 2
  let cy0 := y + h.fdiv 2 - th.fdiv 2
  let cx1 := if cx0 < 0 then 0 else cx0
  let cy1 := if cy0 < 0 then 0 else cy0
  let cx2 := if cx1 + tw > vw then vw - tw else cx1
  let cy2 := if cy1 + th > vh then vh - th else cy1
  (cx2, cy2, tw, th)

/-- `ExportThread._calculate_fixed_crop` (src/export_thread.py lines
296-308 and src/ui/export_thread.py lines 495-507): the same crop with
the clamp written as `max(0, min(_, video - target))`. -/
def ExportThread_calculate_fixed_crop (x y w h tw th vw vh : ℤ) :
    ℤ × ℤ × ℤ × ℤ :=
  let cx := max 0 (min (x + w.fdiv 2 - tw.fdiv 2) (vw - tw))
  let cy := max 0 (min (y + h.fdiv 2 - th.fdiv 2) (vh - th))
  (cx, cy, tw, th)

/-- EMA loop of `smooth_crop_sizes`: the state starts at the first pair
and the loop re-processes every pair including the first. -/
def smoothGo (alpha : ℚ) (ew eh : ℚ) : List (ℤ × ℤ) → List (ℤ × ℤ)
  | [] => []
  | (cw, ch) :: rest =>
    let ew' := alpha * (cw : ℚ) + (1 - alpha) * ew
    let eh' := alpha * (ch : ℚ) + (1 - alpha) * eh
    (pyInt ew', pyInt eh') :: smoothGo alpha ew' eh' rest

/-- `smooth_crop_sizes` (src/export_final.py lines 423-451, identical
copy in src/ui/export_thread.py lines 113-131): EMA over the per-frame
adaptive crop sizes with `alpha = 2 / (smooth_window + 1)`. -/
def smooth_crop_sizes (sizes : List (ℤ × ℤ)) (sw : ℤ) : List (ℤ × ℤ) :=
  if sizes.length < 2 then sizes
  else
    match sizes with
    | [] => []
    | s :: _ => smoothGo (2 / ((sw : ℚ) + 1)) (s.1 : ℚ) (s.2 : ℚ) sizes

/-- Python dict lookup for `coords_dict = {c[0]: c for c in coords}`:
the last row with the requested frame number wins. -/
def dictLookup (coords : List Coord) (f : ℤ) : Option Coord :=
  coords.foldl (fun acc c => if c.frame = f then some c else acc) none

/-- `min(coords_dict.keys())`: the smallest frame number. -/
def minFrame : List Coord → ℤ
  | [] => 0
  | c :: cs => (cs.map (·.frame)).foldl min c.frame

/-- `coords_dict[first_tracked_frame]` (total model: the default is never
reached when the list is nonempty). -/
def getBox (coords : List Coord) (f : ℤ) : Coord :=
  (dictLookup coords f).getD ⟨0, 0, 0, 0, 0⟩

/-- Lookup in `adaptive_crop_sizes` (frame number → smoothed size). -/
def sizeLookup (sizes : List (ℤ × ℤ × ℤ)) (f : ℤ) : Option (ℤ × ℤ) :=
  sizes.foldl (fun acc s => if s.1 = f then some s.2 else acc) none

/-- Per-frame body of the export loop of `crop_and_export_fixed_ratio`
(src/export_final.py lines 671-701): with a tracked box, adaptive mode
centers the pre-smoothed size on the box and clamps with
`max(0, min(_, video - size))`, fixed mode calls `calculate_fixed_crop`;
without a box the previous plan is reused unchanged. -/
def finalStep (coords : List Coord) (useAdaptive : Bool)
    (sizes : List (ℤ × ℤ × ℤ)) (cw ch vw vh : ℤ) (f : ℤ)
    (last : CropRect) : CropRect :=
  match dictLookup coords f with
  | none => last
  | some c =>
    if useAdaptive then
      match sizeLookup sizes f with
      | some s =>
        ⟨max 0 (min (c.x + c.w.fdiv 2 - s.1.fdiv 2) (vw - s.1)),
         max 0 (min (c.y + c.h.fdiv 2 - s.2.fdiv 2) (vh - s.2)),
         s.1, s.2⟩
      | none =>
        let t := calculate_fixed_crop c.x c.y c.w c.h cw ch vw vh
        ⟨t.1, t.2.1, t.2.2.1, t.2.2.2⟩
    else
      let t := calculate_fixed_crop c.x c.y c.w c.h cw ch vw vh
      ⟨t.1, t.2.1, t.2.2.1, t.2.2.2⟩

/-- The `while True: video.read()` loop of `crop_and_export_fixed_ratio`,
one emitted plan per source frame, threading `last_crop`. -/
def goFinal (coords : List Coord) (useAdaptive : Bool)
    (sizes : List (ℤ × ℤ × ℤ)) (cw ch vw vh : ℤ) :
    ℤ → ℕ → CropRect → List CropRect
  | _, 0, _ => []
  | f, n + 1, last =>
    let p := finalStep coords useAdaptive sizes cw ch vw vh f last
    p :: goFinal coords useAdaptive sizes cw ch vw vh (f + 1) n p

/-- The crop-plan timeline of `crop_and_export_fixed_ratio`
(src/export_final.py lines 540-711) on an already smoothed coordinate
list: per-frame adaptive sizes from `calculate_adaptive_crop`, EMA
smoothing of those sizes, the initial `last_crop` from
`calculate_fixed_crop` on the earliest tracked box, then the frame loop
(whose counter starts at 1 in this file). -/
def finalExportPlans (coords : List Coord) (useAdaptive : Bool)
    (r m : ℚ) (tw th cw ch vw vh sw : ℤ) (total : ℕ) : List CropRect :=
  let raw := coords.map fun c =>
    ((calculate_adaptive_crop c.x c.y c.w c.h r vw vh m tw th).2.2.1,
     (calculate_adaptive_crop c.x c.y c.w c.h r vw vh m tw th).2.2.2)
  let sizes := (coords.map (·.frame)).zip (smooth_crop_sizes raw sw)
  let c0 := getBox coords (minFrame coords)
  let t := calculate_fixed_crop c0.x c0.y c0.w c0.h cw ch vw vh
  goFinal coords useAdaptive sizes cw ch vw vh 1 total ⟨t.1, t.2.1, cw, ch⟩

/-- The `for frame_num in range(total_frames)` loop of
`ExportThread.run` (src/export_thread.py lines 122-158): fixed crop size,
only the crop position is carried as `last_crop_x, last_crop_y`. -/
def goThread (coords : List Coord) (cw ch vw vh : ℤ) :
    ℤ → ℕ → ℤ × ℤ → List CropRect
  | _, 0, _ => []
  | f, n + 1, last =>
    match dictLookup coords f with
    | some c =>
      let t := ExportThread_calculate_fixed_crop c.x c.y c.w c.h cw ch vw vh
      ⟨t.1, t.2.1, cw, ch⟩ :: goThread coords cw ch vw vh (f + 1) n (t.1, t.2.1)
    | none =>
      ⟨last.1, last.2, cw, ch⟩ :: goThread coords cw ch vw vh (f + 1) n last

/-- The crop-plan timeline of `ExportThread.run` (src/export_thread.py
lines 110-158) on an already smoothed coordinate list: initial position
from the earliest tracked box, then the 0-based frame loop. -/
def ExportThread_plans (coords : List Coord) (cw ch vw vh : ℤ)
    (total : ℕ) : List CropRect :=
  let c0 := getBox coords (minFrame coords)
  let t := ExportThread_calculate_fixed_crop c0.x c0.y c0.w c0.h cw ch vw vh
  goThread coords cw ch vw vh 0 total (t.1, t.2.1)

/-- `ExportThread._stabilize_and_smooth` (src/export_thread.py lines
244-294 and src/ui/export_thread.py lines 443-493): short sequences pass
through; otherwise x/y are median-filtered and rolling-mean smoothed while
w/h are pinned to the global medians. -/
def ExportThread_stabilize_and_smooth (coords : List Coord) (sw : ℤ) :
    List Coord :=
  if (coords.length : ℤ) < sw then coords
  else
    let frames := coords.map (·.frame)
    let xs : List ℚ := coords.map fun c => (c.x : ℚ)
    let ys : List ℚ := coords.map fun c => (c.y : ℚ)
    let ws : List ℚ := coords.map fun c => (c.w : ℚ)
    let hs : List ℚ := coords.map fun c => (c.h : ℚ)
    let medW := pyInt (npMedian ws)
    let medH := pyInt (npMedian hs)
    let xsf := (List.range xs.length).map fun i => medFilterAt xs sw i
    let ysf := (List.range xs.length).map fun i => medFilterAt ys sw i
    (List.range frames.length).map fun i =>
      ⟨frames.getD i 0,
       pyInt (npMean (winSlice xsf sw i)),
       pyInt (npMean (winSlice ysf sw i)),
       medW, medH⟩

/-- The coordinate-consuming part of `ExportThread.run`
(src/export_thread.py lines 38-158): empty coordinates are reported
through the `export_error` signal (`Except.error`) and no plan is
produced; otherwise interpolation, stabilization, the median-based crop
size clamped to the video, and the frame loop. -/
def ExportThread_run (coords : List Coord) (m : ℚ) (sw vw vh : ℤ)
    (total : ℕ) : Except String (List CropRect) :=
  if coords = [] then Except.error "No coordinates found in CSV"
  else
    let c1 := ExportThread_interpolate_gaps coords
    let c2 := ExportThread_stabilize_and_smooth c1 sw
    let medW := pyInt (npMedian (c2.map fun c => (c.w : ℚ)))
    let medH := pyInt (npMedian (c2.map fun c => (c.h : ℚ)))
    let cw := min (pyInt ((medW : ℚ) * m)) vw
    let ch := min (pyInt ((medH : ℚ) * m)) vh
    Except.ok (ExportThread_plans c2 cw ch vw vh total)

/-- The consecutive integer frames `s, s+1, ..., s+n-1`. -/
def rangeZ (s : ℤ) (n : ℕ) : List ℤ :=
  (List.range n).map fun k : ℕ => s + (k : ℤ)

/-- The CoordinateSequence invariant of the spec data model: frame
numbers strictly increase along the list. -/
def framesStrictMono (coords : List Coord) : Prop :=
  List.Chain' (fun p q => p.frame < q.frame) coords

instance (coords : List Coord) : Decidable (framesStrictMono coords) :=
  inferInstanceAs
    (Decidable (List.Chain' (fun p q : Coord => p.frame < q.frame) coords))

/-!  Theorems.  -/

theorem expandAux_of_no_gaps (a : Coord) (rest : List Coord)
    (h : hasGaps (a :: rest) = false) : expandAux a rest = a :: rest := by
  induction rest generalizing a with
  | nil => rfl
  | cons b rest ih =>
    rw [hasGaps, Bool.or_eq_false_iff] at h
    obtain ⟨h1, h2⟩ := h
    have hg : (b.frame - a.frame - 1).toNat = 0 := by
      simp only [decide_eq_false_iff_not, not_lt] at h1
      omega
    show (a :: interpBetween a b) ++ expandAux b rest = a :: b :: rest
    rw [interpBetween, hg, ih b h2]
    rfl

/-- C10: the three duplicated gap-interpolation implementations,
`interpolate_gaps` in export_final.py, `ExportThread._interpolate_gaps`
in export_thread.py and `ExportThread._interpolate_gaps` in
ui/export_thread.py, are extensionally equal: on every input coordinate
sequence all three return the same output sequence.  (The only textual
difference, the no-gap early return of export_final.py, returns exactly
the list the common loop would rebuild.) -/
theorem C10_interp_equivalence (coords : List Coord) :
    interpolate_gaps coords = ExportThread_interpolate_gaps coords ∧
    ExportThread_interpolate_gaps coords = UI_ExportThread_interpolate_gaps coords := by
  refine ⟨?_, rfl⟩
  by_cases hlen : coords.length < 2
  · rw [interpolate_gaps.eq_def, ExportThread_interpolate_gaps.eq_def,
      if_pos hlen, if_pos hlen]
  · rw [interpolate_gaps.eq_def, ExportThread_interpolate_gaps.eq_def,
      if_neg hlen, if_neg hlen]
    match coords with
    | [] => rfl
    | a :: rest =>
      by_cases hg : hasGaps (a :: rest) = false
      · rw [if_pos hg]
        exact (expandAux_of_no_gaps a rest hg).symm
      · rw [if_neg hg]

/-- C7: a coordinate sequence strictly shorter than `smooth_window` is
returned by the rolling-mean smoother `stabilize_and_smooth_coordinates`
unchanged — same length, same entries, no failure. -/
theorem C7_short_input_passthrough (coords : List Coord) (sw : ℤ)
    (h : (coords.length : ℤ) < sw) :
    stabilize_and_smooth_coordinates coords sw = coords := by
  rw [stabilize_and_smooth_coordinates, if_pos h]

theorem C7_witness :
    ((([⟨0, 1, 2, 3, 4⟩, ⟨1, 5, 6, 7, 8⟩] : List Coord).length : ℤ) < 15) ∧
    stabilize_and_smooth_coordinates [⟨0, 1, 2, 3, 4⟩, ⟨1, 5, 6, 7, 8⟩] 15 =
      [⟨0, 1, 2, 3, 4⟩, ⟨1, 5, 6, 7, 8⟩] :=
  ⟨by decide, C7_short_input_passthrough _ 15 (by decide)⟩

/-- C8: on an input coordinate sequence with zero tracked frames the
export thread reports an explicit error result to the caller (the
`export_error` signal with message `No coordinates found in CSV`) and
produces no crop plan at all; on every non-empty input this error branch
is not taken and a plan list is produced. -/
theorem C8_empty_input_error (coords : List Coord) (m : ℚ)
    (sw vw vh : ℤ) (total : ℕ) :
    (coords = [] →
      ExportThread_run coords m sw vw vh total =
        Except.error "No coordinates found in CSV") ∧
    (coords ≠ [] →
      ∃ ps, ExportThread_run coords m sw vw vh total = Except.ok ps) := by
  constructor
  · intro h
    subst h
    rfl
  · intro h
    rw [ExportThread_run, if_neg h]
    exact ⟨_, rfl⟩

theorem C8_witness :
    (ExportThread_run [] 1 15 100 100 10 =
      Except.error "No coordinates found in CSV") ∧
    ∃ ps, ExportThread_run [⟨0, 0, 0, 10, 10⟩] 1 15 100 100 10 =
      Except.ok ps :=
  ⟨(C8_empty_input_error [] 1 15 100 100 10).1 rfl,
   (C8_empty_input_error [⟨0, 0, 0, 10, 10⟩] 1 15 100 100 10).2 (by decide)⟩

theorem pyInt_intCast (z : ℤ) : pyInt (z : ℚ) = z := by
  rw [pyInt]
  split <;> simp

theorem replicate_getD (n i : ℕ) (c d : ℚ) (h : i < n) :
    (List.replicate n c).getD i d = c := by
  rw [List.getD_eq_getElem?_getD, List.getElem?_replicate, if_pos h]
  rfl

theorem sortQ_replicate (n : ℕ) (c : ℚ) :
    sortQ (List.replicate n c) = List.replicate n c := by
  induction n with
  | zero => rfl
  | succ m ih =>
    rw [List.replicate_succ, sortQ, List.foldr_cons]
    rw [show List.foldr insertSorted [] (List.replicate m c) = sortQ (List.replicate m c) from rfl]
    rw [ih]
    cases m with
    | zero => rfl
    | succ k =>
      rw [List.replicate_succ, insertSorted, if_pos le_rfl]

theorem npMedian_replicate (n : ℕ) (c : ℚ) (h : 1 ≤ n) :
    npMedian (List.replicate n c) = c := by
  rw [npMedian, List.length_replicate, sortQ_replicate]
  split
  · exact replicate_getD n (n / 2) c 0 (by omega)
  · have he : n % 2 = 0 := by omega
    have h2 : 2 ≤ n := by omega
    rw [replicate_getD n (n / 2 - 1) c 0 (by omega),
        replicate_getD n (n / 2) c 0 (by omega)]
    ring

theorem npPercentile75_replicate (n : ℕ) (c : ℚ) (h : 1 ≤ n) :
    npPercentile75 (List.replicate n c) = c := by
  rw [npPercentile75, List.length_replicate, sortQ_replicate]
  by_cases h1 : n = 1
  · subst h1
    norm_num [Int.toNat, replicate_getD 1 0 c 0]
  · have h2 : 2 ≤ n := by omega
    have hfl : ⌊(3 : ℚ) * ((n : ℚ) - 1) / 4⌋ < (n : ℤ) - 1 := by
      apply Int.floor_lt.2
      push_cast
      have : (2 : ℚ) ≤ (n : ℚ) := by exact_mod_cast h2
      linarith
    have hge : 0 ≤ ⌊(3 : ℚ) * ((n : ℚ) - 1) / 4⌋ := by
      apply Int.floor_nonneg.2
      have : (1 : ℚ) ≤ (n : ℚ) := by exact_mod_cast h
      nlinarith
    have hi1 : (⌊(3 : ℚ) * ((n : ℚ) - 1) / 4⌋).toNat < n := by omega
    have hi2 : (⌊(3 : ℚ) * ((n : ℚ) - 1) / 4⌋).toNat + 1 < n := by omega
    rw [replicate_getD n _ c 0 hi1, replicate_getD n _ c 0 hi2]
    ring

theorem winSlice_replicate (n : ℕ) (c : ℚ) (sw : ℤ) (i : ℕ)
    (hsw : 0 ≤ sw) (hi : i < n) :
    ∃ k, 1 ≤ k ∧ winSlice (List.replicate n c) sw i = List.replicate k c := by
  rw [winSlice, List.length_replicate, List.drop_replicate, List.take_replicate]
  refine ⟨_, ?_, rfl⟩
  have hf : 0 ≤ sw.fdiv 2 := Int.fdiv_nonneg hsw (by omega)
  have hstart : (max 0 ((i : ℤ) - sw.fdiv 2)).toNat ≤ i := by omega
  have hstop : (i : ℤ) + 1 ≤ min ((n : ℤ)) ((i : ℤ) + sw.fdiv 2 + 1) := by omega
  omega

theorem medFilterAt_replicate (n : ℕ) (c : ℚ) (sw : ℤ) (i : ℕ)
    (hsw : 0 ≤ sw) (hi : i < n) :
    medFilterAt (List.replicate n c) sw i = c := by
  obtain ⟨k, hk, hwin⟩ := winSlice_replicate n c sw i hsw hi
  rw [medFilterAt, hwin, npMedian_replicate k c hk,
      replicate_getD n i c 0 hi]
  simp

theorem sizeFilterAt_replicate (n : ℕ) (c : ℚ) (sw : ℤ) (i : ℕ)
    (hsw : 0 ≤ sw) (hi : i < n) :
    sizeFilterAt (List.replicate n c) sw i = c := by
  obtain ⟨k, hk, hwin⟩ := winSlice_replicate n c sw i hsw hi
  rw [sizeFilterAt, hwin, npMedian_replicate k c hk,
      replicate_getD n i c 0 hi]
  split <;> rfl

theorem emaGo_replicate (alpha c : ℚ) (n : ℕ) :
    emaGo alpha c (List.replicate n c) = List.replicate n c := by
  induction n with
  | zero => rfl
  | succ m ih =>
    rw [List.replicate_succ, emaGo]
    have he : alpha * c + (1 - alpha) * c = c := by ring
    rw [he, ih]

theorem emaScan_replicate (alpha c : ℚ) (n : ℕ) :
    emaScan alpha (List.replicate n c) = List.replicate n c := by
  cases n with
  | zero => rfl
  | succ m =>
    rw [List.replicate_succ, emaScan, emaGo_replicate]

theorem map_const_of_mem {α : Type} (l : List α) (f : α → ℚ) (c : ℚ)
    (h : ∀ a ∈ l, f a = c) : l.map f = List.replicate l.length c := by
  refine List.eq_replicate_iff.2 ⟨by simp, ?_⟩
  intro b hb
  obtain ⟨a, ha, rfl⟩ := List.mem_map.1 hb
  exact h a ha

theorem range_map_const (n : ℕ) (f : ℕ → ℚ) (c : ℚ)
    (h : ∀ i < n, f i = c) :
    (List.range n).map f = List.replicate n c := by
  refine List.eq_replicate_iff.2 ⟨by simp, ?_⟩
  intro b hb
  obtain ⟨i, hi, rfl⟩ := List.mem_map.1 hb
  exact h i (List.mem_range.1 hi)

theorem mkCoords_const (coords : List Coord) (x y w h : ℤ)
    (hconst : ∀ c ∈ coords, c.x = x ∧ c.y = y ∧ c.w = w ∧ c.h = h) :
    mkCoords (coords.map (·.frame))
      (List.replicate coords.length (x : ℚ))
      (List.replicate coords.length (y : ℚ))
      (List.replicate coords.length (w : ℚ))
      (List.replicate coords.length (h : ℚ)) = coords := by
  induction coords with
  | nil => rfl
  | cons c cs ih =>
    obtain ⟨hx, hy, hw, hh⟩ := hconst c (List.mem_cons_self c cs)
    rw [List.map_cons, List.length_cons, List.replicate_succ,
        List.replicate_succ, List.replicate_succ, List.replicate_succ,
        mkCoords, pyInt_intCast, pyInt_intCast, pyInt_intCast, pyInt_intCast,
        ih fun d hd => hconst d (List.mem_cons_of_mem c hd)]
    rw [show (⟨c.frame, x, y, w, h⟩ : Coord) = c from by
      cases c
      simp_all]

/-- C6: on a constant input sequence (all boxes identical) the EMA
smoothing stage `stabilize_and_smooth_coordinates_ema`, with
`alpha = 2 / (window + 1)`, `ema[0] = filtered[0]` and
`ema[i] = alpha * filtered[i] + (1 - alpha) * ema[i-1]`, returns the
input unchanged at every index: the constant sequence is a fixed point. -/
theorem C6_ema_constant_fixed_point (coords : List Coord) (sw : ℤ)
    (x y w h : ℤ) (hsw : 0 ≤ sw)
    (hconst : ∀ c ∈ coords, c.x = x ∧ c.y = y ∧ c.w = w ∧ c.h = h) :
    stabilize_and_smooth_coordinates_ema coords sw = coords := by
  by_cases hlen : coords.length < 2
  · rw [stabilize_and_smooth_coordinates_ema, if_pos hlen]
  · rw [stabilize_and_smooth_coordinates_ema, if_neg hlen]
    have hx := map_const_of_mem coords (fun c => ((c.x : ℚ))) (x : ℚ)
      fun a ha => by simp only [(hconst a ha).1]
    have hy := map_const_of_mem coords (fun c => ((c.y : ℚ))) (y : ℚ)
      fun a ha => by simp only [(hconst a ha).2.1]
    have hw := map_const_of_mem coords (fun c => ((c.w : ℚ))) (w : ℚ)
      fun a ha => by simp only [(hconst a ha).2.2.1]
    have hh := map_const_of_mem coords (fun c => ((c.h : ℚ))) (h : ℚ)
      fun a ha => by simp only [(hconst a ha).2.2.2]
    simp only
    rw [hx, hy, hw, hh, outlier_filter]
    simp only [List.length_replicate]
    rw [range_map_const coords.length _ (x : ℚ)
        (fun i hi => medFilterAt_replicate coords.length _ sw i hsw hi),
      range_map_const coords.length _ (y : ℚ)
        (fun i hi => medFilterAt_replicate coords.length _ sw i hsw hi),
      range_map_const coords.length _ (w : ℚ)
        (fun i hi => sizeFilterAt_replicate coords.length _ sw i hsw hi),
      range_map_const coords.length _ (h : ℚ)
        (fun i hi => sizeFilterAt_replicate coords.length _ sw i hsw hi)]
    rw [emaScan_replicate, emaScan_replicate, emaScan_replicate,
        emaScan_replicate]
    exact mkCoords_const coords x y w h hconst

theorem C6_witness :
    ((0 : ℤ) ≤ 45) ∧
    stabilize_and_smooth_coordinates_ema
      [⟨0, 7, 8, 30, 40⟩, ⟨1, 7, 8, 30, 40⟩, ⟨5, 7, 8, 30, 40⟩] 45 =
      [⟨0, 7, 8, 30, 40⟩, ⟨1, 7, 8, 30, 40⟩, ⟨5, 7, 8, 30, 40⟩] :=
  ⟨by decide,
   C6_ema_constant_fixed_point _ 45 7 8 30 40 (by decide) (by decide)⟩

theorem winSlice_covers (l : List ℚ) (sw : ℤ) (i : ℕ)
    (h1 : (l.length : ℤ) ≤ sw.fdiv 2 + 1) (h2 : (i : ℤ) ≤ sw.fdiv 2) :
    winSlice l sw i = l := by
  rw [winSlice]
  have hs : max 0 ((i : ℤ) - sw.fdiv 2) = 0 := by omega
  have ht : min ((l.length : ℤ)) ((i : ℤ) + sw.fdiv 2 + 1) = (l.length : ℤ) := by
    omega
  rw [hs, ht]
  simp

theorem medFilterAt_covers (l : List ℚ) (sw : ℤ) (i : ℕ)
    (h1 : (l.length : ℤ) ≤ sw.fdiv 2 + 1) (h2 : (i : ℤ) ≤ sw.fdiv 2) :
    medFilterAt l sw i =
      if |l.getD i 0 - npMedian l| > 200 then npMedian l else l.getD i 0 := by
  rw [medFilterAt, winSlice_covers l sw i h1 h2]

theorem sizeFilterAt_covers (l : List ℚ) (sw : ℤ) (i : ℕ)
    (h1 : (l.length : ℤ) ≤ sw.fdiv 2 + 1) (h2 : (i : ℤ) ≤ sw.fdiv 2) :
    sizeFilterAt l sw i =
      if l.getD i 0 > npPercentile75 l * (3 / 2) then npMedian l
      else l.getD i 0 := by
  rw [sizeFilterAt, winSlice_covers l sw i h1 h2]

theorem med4a : npMedian [0, 0, 390, 1000] = 195 := by
  norm_num [npMedian, sortQ, insertSorted]

theorem med4b : npMedian [0, 0, 390, 195] = 195 / 2 := by
  norm_num [npMedian, sortQ, insertSorted]

theorem med4z : npMedian [(0 : ℚ), 0, 0, 0] = 0 := by
  rw [show [(0 : ℚ), 0, 0, 0] = List.replicate 4 0 from rfl]
  exact npMedian_replicate 4 0 (by omega)

theorem med4t : npMedian [(10 : ℚ), 10, 10, 10] = 10 := by
  rw [show [(10 : ℚ), 10, 10, 10] = List.replicate 4 10 from rfl]
  exact npMedian_replicate 4 10 (by omega)

theorem p754t : npPercentile75 [(10 : ℚ), 10, 10, 10] = 10 := by
  rw [show [(10 : ℚ), 10, 10, 10] = List.replicate 4 10 from rfl]
  exact npPercentile75_replicate 4 10 (by omega)

theorem xpass1 :
    (List.range 4).map (fun i => medFilterAt [0, 0, 390, 1000] 45 i) =
      [0, 0, 390, 195] := by
  have h0 : medFilterAt [0, 0, 390, 1000] 45 0 = 0 := by
    rw [medFilterAt_covers _ _ _ (by decide) (by decide), med4a]
    norm_num [abs]
  have h1 : medFilterAt [0, 0, 390, 1000] 45 1 = 0 := by
    rw [medFilterAt_covers _ _ _ (by decide) (by decide), med4a]
    norm_num [abs]
  have h2 : medFilterAt [0, 0, 390, 1000] 45 2 = 390 := by
    rw [medFilterAt_covers _ _ _ (by decide) (by decide), med4a]
    norm_num [abs]
  have h3 : medFilterAt [0, 0, 390, 1000] 45 3 = 195 := by
    rw [medFilterAt_covers _ _ _ (by decide) (by decide), med4a]
    norm_num [abs]
  simp [List.range_succ, h0, h1, h2, h3]

theorem xpass2 :
    (List.range 4).map (fun i => medFilterAt [0, 0, 390, 195] 45 i) =
      [0, 0, 195 / 2, 195] := by
  have h0 : medFilterAt [0, 0, 390, 195] 45 0 = 0 := by
    rw [medFilterAt_covers _ _ _ (by decide) (by decide), med4b]
    norm_num [abs]
  have h1 : medFilterAt [0, 0, 390, 195] 45 1 = 0 := by
    rw [medFilterAt_covers _ _ _ (by decide) (by decide), med4b]
    norm_num [abs]
  have h2 : medFilterAt [0, 0, 390, 195] 45 2 = 195 / 2 := by
    rw [medFilterAt_covers _ _ _ (by decide) (by decide), med4b]
    norm_num [abs]
  have h3 : medFilterAt [0, 0, 390, 195] 45 3 = 195 := by
    rw [medFilterAt_covers _ _ _ (by decide) (by decide), med4b]
    norm_num [abs]
  simp [List.range_succ, h0, h1, h2, h3]

theorem ypass :
    (List.range 4).map (fun i => medFilterAt [0, 0, 0, 0] 45 i) =
      [0, 0, 0, 0] := by
  have hz : ∀ i, i < 4 → medFilterAt [0, 0, 0, 0] 45 i = 0 := by
    intro i hi
    have := medFilterAt_replicate 4 0 45 i (by omega) hi
    simpa using this
  simp [List.range_succ, hz 0 (by omega), hz 1 (by omega), hz 2 (by omega),
    hz 3 (by omega)]

theorem wpass :
    (List.range 4).map (fun i => sizeFilterAt [10, 10, 10, 10] 45 i) =
      [10, 10, 10, 10] := by
  have hz : ∀ i, i < 4 → sizeFilterAt [10, 10, 10, 10] 45 i = 10 := by
    intro i hi
    have := sizeFilterAt_replicate 4 10 45 i (by omega) hi
    simpa using this
  simp [List.range_succ, hz 0 (by omega), hz 1 (by omega), hz 2 (by omega),
    hz 3 (by omega)]

theorem pass1_eval :
    outlier_filter 45 [0, 0, 390, 1000] [0, 0, 0, 0] [10, 10, 10, 10]
        [10, 10, 10, 10] =
      ([0, 0, 390, 195], [0, 0, 0, 0], [10, 10, 10, 10], [10, 10, 10, 10]) := by
  show ((List.range 4).map (fun i => medFilterAt [0, 0, 390, 1000] 45 i),
        (List.range 4).map (fun i => medFilterAt [0, 0, 0, 0] 45 i),
        (List.range 4).map (fun i => sizeFilterAt [10, 10, 10, 10] 45 i),
        (List.range 4).map (fun i => sizeFilterAt [10, 10, 10, 10] 45 i)) = _
  rw [xpass1, ypass, wpass]

theorem pass2_eval :
    outlier_filter 45 [0, 0, 390, 195] [0, 0, 0, 0] [10, 10, 10, 10]
        [10, 10, 10, 10] =
      ([0, 0, 195 / 2, 195], [0, 0, 0, 0], [10, 10, 10, 10],
       [10, 10, 10, 10]) := by
  show ((List.range 4).map (fun i => medFilterAt [0, 0, 390, 195] 45 i),
        (List.range 4).map (fun i => medFilterAt [0, 0, 0, 0] 45 i),
        (List.range 4).map (fun i => sizeFilterAt [10, 10, 10, 10] 45 i),
        (List.range 4).map (fun i => sizeFilterAt [10, 10, 10, 10] 45 i)) = _
  rw [xpass2, ypass, wpass]

/-- C5 (counterexample): the outlier filter is not idempotent.  On input
x-array `[0, 0, 390, 1000]` (window 45, which covers the whole array) the
first pass replaces only `1000` by the window median 195, keeping 390
(deviation 195 ≤ 200); the second pass sees median 97.5 and now replaces
390 (deviation 292.5 > 200), so applying the filter to its own output
differs from applying it once. -/
theorem C5_counterexample :
    (outlier_filter 45 [0, 0, 390, 1000] [0, 0, 0, 0] [10, 10, 10, 10]
        [10, 10, 10, 10] =
      ([0, 0, 390, 195], [0, 0, 0, 0], [10, 10, 10, 10], [10, 10, 10, 10])) ∧
    outlier_filter 45 [0, 0, 390, 195] [0, 0, 0, 0] [10, 10, 10, 10]
        [10, 10, 10, 10] ≠
      ([0, 0, 390, 195], [0, 0, 0, 0], [10, 10, 10, 10], [10, 10, 10, 10]) := by
  refine ⟨pass1_eval, ?_⟩
  rw [pass2_eval]
  intro hcontra
  rw [Prod.mk.injEq] at hcontra
  have hx := hcontra.1
  rw [List.cons.injEq, List.cons.injEq, List.cons.injEq] at hx
  have : (195 : ℚ) / 2 = 390 := hx.2.2.1
  norm_num at this

/-- C5 (amended): the outlier filter (per-index sliding-window median
replacement on x and y past the 200 px threshold, and median replacement
on w and h past 1.5 × the window's 75th percentile) preserves the length
of every array, and every fixed point of the filter is stable (a second
application changes nothing); it is NOT idempotent on arbitrary inputs —
a first pass can shift window medians enough for a second pass to make
further replacements, as the counterexample shows. -/
theorem C5_filter_amended (sw : ℤ) (xs ys ws hs : List ℚ) :
    ((outlier_filter sw xs ys ws hs).1.length = xs.length ∧
     (outlier_filter sw xs ys ws hs).2.1.length = xs.length ∧
     (outlier_filter sw xs ys ws hs).2.2.1.length = xs.length ∧
     (outlier_filter sw xs ys ws hs).2.2.2.length = xs.length) ∧
    (outlier_filter sw xs ys ws hs = (xs, ys, ws, hs) →
      outlier_filter sw (outlier_filter sw xs ys ws hs).1
          (outlier_filter sw xs ys ws hs).2.1
          (outlier_filter sw xs ys ws hs).2.2.1
          (outlier_filter sw xs ys ws hs).2.2.2 =
        outlier_filter sw xs ys ws hs) := by
  constructor
  · refine ⟨?_, ?_, ?_, ?_⟩ <;> simp [outlier_filter]
  · intro hfix
    rw [hfix]
    exact hfix

theorem med2ab : npMedian [1, 2] = 3 / 2 := by
  norm_num [npMedian, sortQ, insertSorted]

theorem med2z : npMedian [(0 : ℚ), 0] = 0 := by
  rw [show [(0 : ℚ), 0] = List.replicate 2 0 from rfl]
  exact npMedian_replicate 2 0 (by omega)

theorem p752t : npPercentile75 [(10 : ℚ), 10] = 10 := by
  rw [show [(10 : ℚ), 10] = List.replicate 2 10 from rfl]
  exact npPercentile75_replicate 2 10 (by omega)

theorem filter_fixpoint_example :
    outlier_filter 15 [1, 2] [0, 0] [10, 10] [10, 10] =
      ([1, 2], [0, 0], [10, 10], [10, 10]) := by
  have hx0 : medFilterAt [1, 2] 15 0 = 1 := by
    rw [medFilterAt_covers _ _ _ (by decide) (by decide), med2ab]
    norm_num [abs]
  have hx1 : medFilterAt [1, 2] 15 1 = 2 := by
    rw [medFilterAt_covers _ _ _ (by decide) (by decide), med2ab]
    norm_num [abs]
  have hy : ∀ i, i < 2 → medFilterAt [0, 0] 15 i = 0 := by
    intro i hi
    have := medFilterAt_replicate 2 0 15 i (by omega) hi
    simpa using this
  have hw : ∀ i, i < 2 → sizeFilterAt [10, 10] 15 i = 10 := by
    intro i hi
    have := sizeFilterAt_replicate 2 10 15 i (by omega) hi
    simpa using this
  show ((List.range 2).map (fun i => medFilterAt [1, 2] 15 i),
        (List.range 2).map (fun i => medFilterAt [0, 0] 15 i),
        (List.range 2).map (fun i => sizeFilterAt [10, 10] 15 i),
        (List.range 2).map (fun i => sizeFilterAt [10, 10] 15 i)) = _
  simp [List.range_succ, hx0, hx1, hy 0 (by omega), hy 1 (by omega),
    hw 0 (by omega), hw 1 (by omega)]

theorem C5_witness :
    outlier_filter 15
        (outlier_filter 15 [1, 2] [0, 0] [10, 10] [10, 10]).1
        (outlier_filter 15 [1, 2] [0, 0] [10, 10] [10, 10]).2.1
        (outlier_filter 15 [1, 2] [0, 0] [10, 10] [10, 10]).2.2.1
        (outlier_filter 15 [1, 2] [0, 0] [10, 10] [10, 10]).2.2.2 =
      outlier_filter 15 [1, 2] [0, 0] [10, 10] [10, 10] :=
  (C5_filter_amended 15 [1, 2] [0, 0] [10, 10] [10, 10]).2
    filter_fixpoint_example

/-- C9 (counterexample): `"9:16"` parses as two positive integers with
ratio 9/16 < 1, so the claim demands height 1350; but the preset table
takes precedence and `parse_aspect_ratio` returns height 1920. -/
theorem C9_counterexample :
    pyParseInt ( "9".data) = some 9 ∧
    pyParseInt ( "16".data) = some 16 ∧
    ((9 : ℚ) / 16 < 1) ∧
    parse_aspect_ratio ( "9:16".data) = some (1080, 1920, 9 / 16) ∧
    (1920 : ℤ) ≠ 1350 := by
  refine ⟨by decide, by decide, by norm_num, rfl, by decide⟩

/-- C9 (amended): preset strings (including `"4:5"`, `"1:1"`, `"9:16"`,
`"16:9"`) return the preset table entries, taking precedence over the
custom rule, and the stored ratio for `"16:9"` is the rounded literal
1.777, not 16/9.  A non-preset string containing `:` that parses as two
integers W, H with H ≠ 0 (positivity is NOT required) yields
`(int(1350 * (W/H)), 1350, W/H)` when `W/H < 1` and
`(1920, int(1920 / (W/H)), W/H)` otherwise; the automatic-mode sentinel
(`None`) is returned only when the integer parse itself fails or the
second component is zero, without raising (the export_final.py variant
prints a warning on that path, the ui/export_thread.py variant is
silent — an unformalized I/O difference). -/
theorem C9_parse_amended (s a b : List Char) (wr hr : ℤ)
    (hna : pyLower s ≠ "auto".data)
    (hn1 : pyLower s ≠ "instagram".data) (hn2 : pyLower s ≠ "4:5".data)
    (hn3 : pyLower s ≠ "square".data) (hn4 : pyLower s ≠ "1:1".data)
    (hn5 : pyLower s ≠ "9:16".data) (hn6 : pyLower s ≠ "iphone".data)
    (hn7 : pyLower s ≠ "16:9".data) (hn8 : pyLower s ≠ "landscape".data)
    (hcol : s.contains (Char.ofNat 58) = true)
    (hsplit : pySplit (Char.ofNat 58) s = [a, b]) :
    ((pyParseInt a = some wr → pyParseInt b = some hr → hr ≠ 0 →
       parse_aspect_ratio s =
         (if ((wr : ℚ) / (hr : ℚ)) < 1 then
            some (pyInt ((1350 : ℚ) * ((wr : ℚ) / (hr : ℚ))), 1350,
              (wr : ℚ) / (hr : ℚ))
          else
            some (1920, pyInt ((1920 : ℚ) / ((wr : ℚ) / (hr : ℚ))),
              (wr : ℚ) / (hr : ℚ)))) ∧
     ((pyParseInt a = none ∨ pyParseInt b = none ∨ pyParseInt b = some 0) →
       parse_aspect_ratio s = none)) ∧
    (parse_aspect_ratio ( "4:5".data) = some (1080, 1350, 4 / 5) ∧
     parse_aspect_ratio ( "1:1".data) = some (1080, 1080, 1) ∧
     parse_aspect_ratio ( "9:16".data) = some (1080, 1920, 9 / 16) ∧
     parse_aspect_ratio ( "16:9".data) = some (1920, 1080, 1777 / 1000)) := by
  have hbase : parse_aspect_ratio s =
      match pyParseInt a, pyParseInt b with
      | some wr, some hr =>
        if hr = 0 then none
        else
          let q : ℚ := (wr : ℚ) / (hr : ℚ)
          if q < 1 then some (pyInt ((1350 : ℚ) * q), 1350, q)
          else some (1920, pyInt ((1920 : ℚ) / q), q)
      | _, _ => none := by
    rw [parse_aspect_ratio, if_neg hna,
      if_neg (by simp [hn1, hn2]), if_neg (by simp [hn3, hn4]),
      if_neg (by simp [hn5, hn6]), if_neg (by simp [hn7, hn8]),
      if_pos hcol, hsplit]
  refine ⟨⟨?_, ?_⟩, rfl, rfl, rfl, rfl⟩
  · intro hpa hpb hz
    rw [hbase, hpa, hpb]
    simp only [if_neg hz]
  · intro hfail
    rcases hfail with hf | hf | hf
    · rw [hbase, hf]
    · cases hpa : pyParseInt a with
      | none => rw [hbase, hpa]
      | some v => rw [hbase, hpa, hf]
    · cases hpa : pyParseInt a with
      | none => rw [hbase, hpa]
      | some v =>
        rw [hbase, hpa, hf]
        simp

theorem C9_witness :
    parse_aspect_ratio ( "2:3".data) = some (900, 1350, 2 / 3) := by
  have h := (C9_parse_amended ( "2:3".data) ( "2".data) ( "3".data) 2 3
    (by decide) (by decide) (by decide) (by decide) (by decide) (by decide)
    (by decide) (by decide) (by decide) (by decide) (by decide)).1.1
    (by decide) (by decide) (by decide)
  rw [h, if_pos (by norm_num)]
  norm_num [pyInt]



theorem interp_eq_expand (a : Coord) (rest : List Coord) (hne : rest ≠ []) :
    interpolate_gaps (a :: rest) = expandAux a rest := by
  have hlen : ¬((a :: rest).length < 2) := by
    cases rest with
    | nil => exact absurd rfl hne
    | cons b t => simp [List.length_cons]
  by_cases hg : hasGaps (a :: rest) = false
  · rw [interpolate_gaps.eq_def, if_neg hlen, if_pos hg]
    exact (expandAux_of_no_gaps a rest hg).symm
  · rw [interpolate_gaps.eq_def, if_neg hlen, if_neg hg]

theorem interpBetween_frames (a b : Coord) :
    (interpBetween a b).map (·.frame) =
      rangeZ (a.frame + 1) (b.frame - a.frame - 1).toNat := by
  rw [interpBetween, rangeZ, List.map_map]
  apply List.map_congr_left
  intro j _
  show (synthBox a b ((j : ℤ) + 1)).frame = a.frame + 1 + (j : ℤ)
  rw [synthBox]
  show a.frame + ((j : ℤ) + 1) = a.frame + 1 + (j : ℤ)
  omega

theorem rangeZ_cons (s : ℤ) (n : ℕ) :
    rangeZ s (n + 1) = s :: rangeZ (s + 1) n := by
  rw [rangeZ, rangeZ, List.range_succ_eq_map, List.map_cons, List.map_map]
  congr 1
  · show s + ((0 : ℕ) : ℤ) = s
    omega
  · apply List.map_congr_left
    intro k _
    show s + ((Nat.succ k : ℕ) : ℤ) = s + 1 + (k : ℤ)
    omega

theorem rangeZ_append (s : ℤ) (m k : ℕ) :
    rangeZ s m ++ rangeZ (s + (m : ℤ)) k = rangeZ s (m + k) := by
  rw [rangeZ, rangeZ, rangeZ, List.range_add, List.map_append, List.map_map]
  congr 1
  apply List.map_congr_left
  intro j _
  show s + (m : ℤ) + (j : ℤ) = s + ((m + j : ℕ) : ℤ)
  push_cast
  ring

theorem chain_le_last (rest : List Coord) (a : Coord)
    (h : framesStrictMono (a :: rest)) :
    a.frame ≤ (rest.getLastD a).frame := by
  induction rest generalizing a with
  | nil => exact le_rfl
  | cons b t ih =>
    rw [framesStrictMono, List.chain'_cons] at h
    rw [List.getLastD_cons]
    exact le_trans (le_of_lt h.1) (ih b h.2)

theorem expandAux_frames (rest : List Coord) (a : Coord)
    (h : framesStrictMono (a :: rest)) :
    (expandAux a rest).map (·.frame) =
      rangeZ a.frame ((rest.getLastD a).frame + 1 - a.frame).toNat := by
  induction rest generalizing a with
  | nil =>
    show [a.frame] = rangeZ a.frame (a.frame + 1 - a.frame).toNat
    rw [show (a.frame + 1 - a.frame).toNat = 1 by omega]
    show [a.frame] = [a.frame + ((0 : ℕ) : ℤ)]
    rw [show a.frame + ((0 : ℕ) : ℤ) = a.frame by omega]
  | cons b t ih =>
    rw [framesStrictMono, List.chain'_cons] at h
    have hab := h.1
    have hlast := chain_le_last t b h.2
    rw [show expandAux a (b :: t) = (a :: interpBetween a b) ++ expandAux b t
        from rfl]
    simp only [List.map_append, List.map_cons]
    rw [interpBetween_frames, ih b h.2, List.getLastD_cons]
    have h1 : a.frame :: rangeZ (a.frame + 1) (b.frame - a.frame - 1).toNat =
        rangeZ a.frame ((b.frame - a.frame - 1).toNat + 1) := by
      rw [rangeZ_cons]
    have h2 : rangeZ b.frame ((t.getLastD b).frame + 1 - b.frame).toNat =
        rangeZ (a.frame + (((b.frame - a.frame - 1).toNat + 1 : ℕ) : ℤ))
          ((t.getLastD b).frame + 1 - b.frame).toNat := by
      rw [show a.frame + (((b.frame - a.frame - 1).toNat + 1 : ℕ) : ℤ) = b.frame
          by push_cast; omega]
    rw [h1, h2, rangeZ_append]
    congr 1
    omega

theorem expandAux_mem (rest : List Coord) (a : Coord) :
    ∀ c ∈ a :: rest, c ∈ expandAux a rest := by
  induction rest generalizing a with
  | nil =>
    intro c hc
    exact hc
  | cons b t ih =>
    intro c hc
    rw [show expandAux a (b :: t) = (a :: interpBetween a b) ++ expandAux b t
        from rfl]
    rcases List.mem_cons.1 hc with rfl | hc
    · exact List.mem_append_left _ (List.mem_cons_self _ _)
    · exact List.mem_append_right _ (ih b c hc)

theorem expandAux_origin (rest : List Coord) (a : Coord) :
    ∀ d ∈ expandAux a rest,
      d ∈ a :: rest ∨
      ∃ (l₁ : List Coord) (p q : Coord) (l₂ : List Coord) (j : ℤ),
        a :: rest = l₁ ++ p :: q :: l₂ ∧
        1 ≤ j ∧ j ≤ q.frame - p.frame - 1 ∧ d = synthBox p q j := by
  induction rest generalizing a with
  | nil =>
    intro d hd
    exact Or.inl hd
  | cons b t ih =>
    intro d hd
    rw [show expandAux a (b :: t) = (a :: interpBetween a b) ++ expandAux b t
        from rfl] at hd
    rcases List.mem_append.1 hd with hd | hd
    · rcases List.mem_cons.1 hd with rfl | hd
      · exact Or.inl (List.mem_cons_self _ _)
      · rw [interpBetween] at hd
        obtain ⟨k, hk, rfl⟩ := List.mem_map.1 hd
        rw [List.mem_range] at hk
        right
        refine ⟨[], a, b, t, (k : ℤ) + 1, rfl, by omega, by omega, rfl⟩
    · rcases ih b d hd with hmem | ⟨l₁, p, q, l₂, j, heq, hj1, hj2, hsyn⟩
      · exact Or.inl (List.mem_cons_of_mem a hmem)
      · right
        exact ⟨a :: l₁, p, q, l₂, j, by rw [List.cons_append, heq], hj1, hj2,
          hsyn⟩

/-- C2 (amended): for every coordinate sequence of length at least 2 with
strictly increasing frames, gap interpolation returns exactly one entry
per integer frame from the first to the last input frame inclusive
(nothing before or after), keeps every input box, and synthesizes every
other entry between some adjacent input pair `(p, q)` at gap position
`j ∈ [1, gap]` with value `int(v_p + (v_q - v_p) * j / (gap + 1))` —
truncation toward zero (`int(...)`), not `round(...)` as the claim
stated.  On the claim's example the two coincide: input
`[(0,0,0,10,10), (4,40,40,10,10)]` yields frames 0..4 with positions
(10,10), (20,20), (30,30) at frames 1, 2, 3 and sizes 10×10. -/
theorem C2_interpolation_amended (a : Coord) (rest : List Coord)
    (hne : rest ≠ []) (hmono : framesStrictMono (a :: rest)) :
    ((interpolate_gaps (a :: rest)).map (·.frame) =
       rangeZ a.frame ((rest.getLastD a).frame + 1 - a.frame).toNat) ∧
    (∀ c ∈ a :: rest, c ∈ interpolate_gaps (a :: rest)) ∧
    (∀ d ∈ interpolate_gaps (a :: rest),
       d ∈ a :: rest ∨
       ∃ (l₁ : List Coord) (p q : Coord) (l₂ : List Coord) (j : ℤ),
         a :: rest = l₁ ++ p :: q :: l₂ ∧
         1 ≤ j ∧ j ≤ q.frame - p.frame - 1 ∧ d = synthBox p q j) ∧
    interpolate_gaps [⟨0, 0, 0, 10, 10⟩, ⟨4, 40, 40, 10, 10⟩] =
      [⟨0, 0, 0, 10, 10⟩, ⟨1, 10, 10, 10, 10⟩, ⟨2, 20, 20, 10, 10⟩,
       ⟨3, 30, 30, 10, 10⟩, ⟨4, 40, 40, 10, 10⟩] := by
  rw [interp_eq_expand a rest hne]
  refine ⟨expandAux_frames rest a hmono, expandAux_mem rest a,
    expandAux_origin rest a, ?_⟩
  rw [interp_eq_expand _ _ (by decide)]
  show (⟨0, 0, 0, 10, 10⟩ :
      Coord) :: interpBetween ⟨0, 0, 0, 10, 10⟩ ⟨4, 40, 40, 10, 10⟩
      ++ [⟨4, 40, 40, 10, 10⟩] = _
  rw [interpBetween]
  norm_num [synthBox, pyInt, Int.toNat, List.range_succ, Coord.mk.injEq]

/-- C2 (counterexample): for input `[(0,0,0,10,10), (2,3,3,10,10)]` the
synthesized box at frame 1 has `x = int(0 + 3 * (1/2)) = 1`, while the
claim's formula demands `round(0 + 3 * (1/2)) = 2`. -/
theorem C2_counterexample :
    interpolate_gaps [⟨0, 0, 0, 10, 10⟩, ⟨2, 3, 3, 10, 10⟩] =
      [⟨0, 0, 0, 10, 10⟩, ⟨1, 1, 1, 10, 10⟩, ⟨2, 3, 3, 10, 10⟩] ∧
    round ((0 : ℚ) + ((3 : ℚ) - 0) * ((1 : ℚ) / (1 + 1))) = 2 ∧
    (1 : ℤ) ≠ 2 := by
  refine ⟨?_, ?_, by decide⟩
  · rw [interp_eq_expand _ _ (by decide)]
    show (⟨0, 0, 0, 10, 10⟩ :
        Coord) :: interpBetween ⟨0, 0, 0, 10, 10⟩ ⟨2, 3, 3, 10, 10⟩
        ++ [⟨2, 3, 3, 10, 10⟩] = _
    rw [interpBetween]
    norm_num [synthBox, pyInt, Int.toNat, List.range_succ, Coord.mk.injEq]
  · rw [round_eq]
    norm_num

theorem C2_witness :
    (([⟨4, 40, 40, 10, 10⟩] : List Coord) ≠ []) ∧
    framesStrictMono [⟨0, 0, 0, 10, 10⟩, ⟨4, 40, 40, 10, 10⟩] ∧
    interpolate_gaps [⟨0, 0, 0, 10, 10⟩, ⟨4, 40, 40, 10, 10⟩] =
      [⟨0, 0, 0, 10, 10⟩, ⟨1, 10, 10, 10, 10⟩, ⟨2, 20, 20, 10, 10⟩,
       ⟨3, 30, 30, 10, 10⟩, ⟨4, 40, 40, 10, 10⟩] :=
  ⟨by decide, by simp [framesStrictMono, List.chain'_cons],
   (C2_interpolation_amended ⟨0, 0, 0, 10, 10⟩ [⟨4, 40, 40, 10, 10⟩]
     (by decide)
     (by simp [framesStrictMono, List.chain'_cons])).2.2.2⟩


theorem dictLookup_aux (f : ℤ) (l : List Coord) (acc : Option Coord)
    (c : Coord)
    (h : l.foldl (fun acc c => if c.frame = f then some c else acc) acc =
      some c) :
    acc = some c ∨ (c ∈ l ∧ c.frame = f) := by
  induction l generalizing acc with
  | nil => exact Or.inl h
  | cons d l ih =>
    rw [List.foldl_cons] at h
    rcases ih _ h with hacc | hmem
    · by_cases hd : d.frame = f
      · rw [if_pos hd] at hacc
        have hdc : d = c := Option.some.inj hacc
        subst hdc
        exact Or.inr ⟨List.mem_cons_self _ _, hd⟩
      · rw [if_neg hd] at hacc
        exact Or.inl hacc
    · exact Or.inr ⟨List.mem_cons_of_mem d hmem.1, hmem.2⟩

theorem dictLookup_some (coords : List Coord) (f : ℤ) (c : Coord)
    (h : dictLookup coords f = some c) : c ∈ coords ∧ c.frame = f := by
  rcases dictLookup_aux f coords none c h with hacc | hmem
  · exact absurd hacc (by simp)
  · exact hmem

theorem foldl_min_le_init (l : List ℤ) (init : ℤ) :
    l.foldl min init ≤ init := by
  induction l generalizing init with
  | nil => exact le_rfl
  | cons y l ih =>
    rw [List.foldl_cons]
    exact le_trans (ih (min init y)) (min_le_left _ _)

theorem foldl_min_le_mem (l : List ℤ) :
    ∀ (init x : ℤ), x ∈ l → l.foldl min init ≤ x := by
  induction l with
  | nil =>
    intro init x hx
    exact absurd hx (List.not_mem_nil x)
  | cons y l ih =>
    intro init x hx
    rw [List.foldl_cons]
    rcases List.mem_cons.1 hx with rfl | hx
    · exact le_trans (foldl_min_le_init l (min init x)) (min_le_right _ _)
    · exact ih (min init y) x hx

theorem minFrame_le (coords : List Coord) (c : Coord) (hc : c ∈ coords) :
    minFrame coords ≤ c.frame := by
  cases coords with
  | nil => exact absurd hc (List.not_mem_nil c)
  | cons a cs =>
    rw [minFrame]
    rcases List.mem_cons.1 hc with rfl | hc
    · exact foldl_min_le_init _ _
    · exact foldl_min_le_mem _ _ _ (List.mem_map_of_mem (·.frame) hc)

theorem dictLookup_none_of_lt_min (coords : List Coord) (f : ℤ)
    (h : f < minFrame coords) : dictLookup coords f = none := by
  cases hd : dictLookup coords f with
  | none => rfl
  | some c =>
    obtain ⟨hmem, hfr⟩ := dictLookup_some coords f c hd
    have := minFrame_le coords c hmem
    omega

theorem goThread_length (coords : List Coord) (cw ch vw vh : ℤ) :
    ∀ (n : ℕ) (f : ℤ) (st : ℤ × ℤ),
      (goThread coords cw ch vw vh f n st).length = n := by
  intro n
  induction n with
  | zero =>
    intro f st
    rfl
  | succ m ih =>
    intro f st
    rw [goThread]
    cases dictLookup coords f with
    | some c => rw [List.length_cons, ih]
    | none => rw [List.length_cons, ih]

theorem goThread_carry (coords : List Coord) (cw ch vw vh : ℤ) :
    ∀ (i n : ℕ) (f : ℤ) (st : ℤ × ℤ), i + 1 < n →
      dictLookup coords (f + (i : ℤ) + 1) = none →
      (goThread coords cw ch vw vh f n st).getD (i + 1) ⟨0, 0, 0, 0⟩ =
        (goThread coords cw ch vw vh f n st).getD i ⟨0, 0, 0, 0⟩ := by
  intro i
  induction i with
  | zero =>
    intro n f st hn hnone
    match n, hn with
    | m + 2, _ =>
      have hf1 : dictLookup coords (f + 1) = none := by
        rw [show f + 1 = f + ((0 : ℕ) : ℤ) + 1 by push_cast; ring]
        exact hnone
      cases hd : dictLookup coords f with
      | some c =>
        simp only [goThread, hd, hf1, List.getD_cons_zero, List.getD_cons_succ]
      | none =>
        simp only [goThread, hd, hf1, List.getD_cons_zero, List.getD_cons_succ]
  | succ i ih =>
    intro n f st hn hnone
    match n, hn with
    | m + 1, hn =>
      have hm : i + 1 < m := by omega
      have hsh : dictLookup coords (f + 1 + (i : ℤ) + 1) = none := by
        rw [show f + 1 + (i : ℤ) + 1 = f + ((i + 1 : ℕ) : ℤ) + 1 by
          push_cast; ring]
        exact hnone
      cases hd : dictLookup coords f with
      | some c =>
        simp only [goThread, hd, List.getD_cons_succ]
        exact ih m (f + 1) _ hm hsh
      | none =>
        simp only [goThread, hd, List.getD_cons_succ]
        exact ih m (f + 1) _ hm hsh

theorem goThread_before (coords : List Coord) (cw ch vw vh : ℤ) :
    ∀ (i n : ℕ) (f : ℤ) (st : ℤ × ℤ), i < n →
      (∀ j : ℕ, j ≤ i → dictLookup coords (f + (j : ℤ)) = none) →
      (goThread coords cw ch vw vh f n st).getD i ⟨0, 0, 0, 0⟩ =
        ⟨st.1, st.2, cw, ch⟩ := by
  intro i
  induction i with
  | zero =>
    intro n f st hn hnone
    match n, hn with
    | m + 1, _ =>
      have h0 : dictLookup coords f = none := by
        have := hnone 0 le_rfl
        rw [show f + ((0 : ℕ) : ℤ) = f by push_cast; ring] at this
        exact this
      simp only [goThread, h0, List.getD_cons_zero]
  | succ i ih =>
    intro n f st hn hnone
    match n, hn with
    | m + 1, hn =>
      have h0 : dictLookup coords f = none := by
        have := hnone 0 (by omega)
        rw [show f + ((0 : ℕ) : ℤ) = f by push_cast; ring] at this
        exact this
      simp only [goThread, h0, List.getD_cons_succ]
      refine ih m (f + 1) st (by omega) ?_
      intro j hj
      have := hnone (j + 1) (by omega)
      rw [show f + ((j + 1 : ℕ) : ℤ) = f + 1 + (j : ℤ) by push_cast; ring]
        at this
      exact this

theorem goThread_at_tracked (coords : List Coord) (cw ch vw vh : ℤ) :
    ∀ (i n : ℕ) (f : ℤ) (st : ℤ × ℤ) (c : Coord), i < n →
      dictLookup coords (f + (i : ℤ)) = some c →
      (goThread coords cw ch vw vh f n st).getD i ⟨0, 0, 0, 0⟩ =
        ⟨(ExportThread_calculate_fixed_crop c.x c.y c.w c.h cw ch vw vh).1,
         (ExportThread_calculate_fixed_crop c.x c.y c.w c.h cw ch vw vh).2.1,
         cw, ch⟩ := by
  intro i
  induction i with
  | zero =>
    intro n f st c hn hsome
    match n, hn with
    | m + 1, _ =>
      rw [show f + ((0 : ℕ) : ℤ) = f by push_cast; ring] at hsome
      simp only [goThread, hsome, List.getD_cons_zero]
  | succ i ih =>
    intro n f st c hn hsome
    match n, hn with
    | m + 1, hn =>
      have hsh : dictLookup coords (f + 1 + (i : ℤ)) = some c := by
        rw [show f + 1 + (i : ℤ) = f + ((i + 1 : ℕ) : ℤ) by push_cast; ring]
        exact hsome
      cases hd : dictLookup coords f with
      | some c0 =>
        simp only [goThread, hd, List.getD_cons_succ]
        exact ih m (f + 1) _ c (by omega) hsh
      | none =>
        simp only [goThread, hd, List.getD_cons_succ]
        exact ih m (f + 1) _ c (by omega) hsh

/-- C3: in the export loop of ExportThread.run, (i) the number of emitted
crop plans equals the number of source frames exactly; (ii) every output
frame with no tracked box reuses the immediately preceding frame's
CropPlan unchanged (last-known-crop policy, which on the 100-frame
scenario with frames 0-49 tracked makes plans 50-99 equal plan 49);
(iii) every frame before the very first tracked frame gets the initial
CropPlan computed from the first tracked box; and (iv) every tracked
frame gets the fixed crop computed from its own box (so the plan emitted
at the first tracked frame equals the plan used before it). -/
theorem C3_last_known_crop (coords : List Coord) (cw ch vw vh : ℤ)
    (total : ℕ) (hne : coords ≠ []) :
    (ExportThread_plans coords cw ch vw vh total).length = total ∧
    (∀ i : ℕ, i + 1 < total → dictLookup coords ((i : ℤ) + 1) = none →
      (ExportThread_plans coords cw ch vw vh total).getD (i + 1) ⟨0, 0, 0, 0⟩ =
        (ExportThread_plans coords cw ch vw vh total).getD i ⟨0, 0, 0, 0⟩) ∧
    (∀ i : ℕ, i < total → (i : ℤ) < minFrame coords →
      (ExportThread_plans coords cw ch vw vh total).getD i ⟨0, 0, 0, 0⟩ =
        ⟨(ExportThread_calculate_fixed_crop (getBox coords (minFrame coords)).x
            (getBox coords (minFrame coords)).y
            (getBox coords (minFrame coords)).w
            (getBox coords (minFrame coords)).h cw ch vw vh).1,
         (ExportThread_calculate_fixed_crop (getBox coords (minFrame coords)).x
            (getBox coords (minFrame coords)).y
            (getBox coords (minFrame coords)).w
            (getBox coords (minFrame coords)).h cw ch vw vh).2.1,
         cw, ch⟩) ∧
    (∀ (i : ℕ) (c : Coord), i < total → dictLookup coords (i : ℤ) = some c →
      (ExportThread_plans coords cw ch vw vh total).getD i ⟨0, 0, 0, 0⟩ =
        ⟨(ExportThread_calculate_fixed_crop c.x c.y c.w c.h cw ch vw vh).1,
         (ExportThread_calculate_fixed_crop c.x c.y c.w c.h cw ch vw vh).2.1,
         cw, ch⟩) := by
  refine ⟨goThread_length coords cw ch vw vh total 0 _, ?_, ?_, ?_⟩
  · intro i hi hnone
    apply goThread_carry coords cw ch vw vh i total 0 _ hi
    rw [show (0 : ℤ) + (i : ℤ) + 1 = (i : ℤ) + 1 by ring]
    exact hnone
  · intro i hi hmin
    apply goThread_before coords cw ch vw vh i total 0 _ hi
    intro j hj
    apply dictLookup_none_of_lt_min
    have : (j : ℤ) ≤ (i : ℤ) := by exact_mod_cast hj
    omega
  · intro i c hi hsome
    apply goThread_at_tracked coords cw ch vw vh i total 0 _ c hi
    rw [show (0 : ℤ) + (i : ℤ) = (i : ℤ) by ring]
    exact hsome

theorem C3_witness :
    (ExportThread_plans [⟨0, 10, 10, 5, 5⟩, ⟨1, 12, 12, 5, 5⟩] 3 3 20 20
        4).length = 4 ∧
    (ExportThread_plans [⟨0, 10, 10, 5, 5⟩, ⟨1, 12, 12, 5, 5⟩] 3 3 20 20
        4).getD 3 ⟨0, 0, 0, 0⟩ =
      (ExportThread_plans [⟨0, 10, 10, 5, 5⟩, ⟨1, 12, 12, 5, 5⟩] 3 3 20 20
        4).getD 2 ⟨0, 0, 0, 0⟩ :=
  ⟨(C3_last_known_crop [⟨0, 10, 10, 5, 5⟩, ⟨1, 12, 12, 5, 5⟩] 3 3 20 20 4
      (by decide)).1,
   (C3_last_known_crop [⟨0, 10, 10, 5, 5⟩, ⟨1, 12, 12, 5, 5⟩] 3 3 20 20 4
      (by decide)).2.1 2 (by decide) (by decide)⟩

theorem calculate_fixed_crop_bounds (x y w h tw th vw vh : ℤ)
    (htw : tw ≤ vw) (hth : th ≤ vh) :
    0 ≤ (calculate_fixed_crop x y w h tw th vw vh).1 ∧
    (calculate_fixed_crop x y w h tw th vw vh).1 + tw ≤ vw ∧
    0 ≤ (calculate_fixed_crop x y w h tw th vw vh).2.1 ∧
    (calculate_fixed_crop x y w h tw th vw vh).2.1 + th ≤ vh := by
  rw [calculate_fixed_crop]
  simp only
  split_ifs <;> refine ⟨?_, ?_, ?_, ?_⟩ <;> omega

theorem calculate_fixed_crop_size (x y w h tw th vw vh : ℤ) :
    (calculate_fixed_crop x y w h tw th vw vh).2.2.1 = tw ∧
    (calculate_fixed_crop x y w h tw th vw vh).2.2.2 = th := by
  exact ⟨rfl, rfl⟩

theorem adaptTolerance_le (r : ℚ) (vw vh : ℤ) (p : ℤ × ℤ)
    (h1 : p.1 ≤ vw) (h2 : p.2 ≤ vh) :
    (adaptTolerance r vw vh p).1 ≤ vw ∧ (adaptTolerance r vw vh p).2 ≤ vh := by
  rw [adaptTolerance]
  split_ifs <;> constructor <;> dsimp only <;> omega

theorem adaptiveSize_le (r : ℚ) (vw vh : ℤ) (m : ℚ) (minW minH w h : ℤ) :
    (adaptiveSize r vw vh m minW minH w h).1 ≤ vw ∧
    (adaptiveSize r vw vh m minW minH w h).2 ≤ vh := by
  rw [adaptiveSize]
  apply adaptTolerance_le
  · exact min_le_right _ _
  · exact min_le_right _ _

theorem pyInt_le_int (q : ℚ) (z : ℤ) (hq : q ≤ (z : ℚ)) (hz : 0 ≤ z) :
    pyInt q ≤ z := by
  rw [pyInt]
  split
  · calc ⌊q⌋ ≤ ⌊(z : ℚ)⌋ := Int.floor_le_floor hq
    _ = z := Int.floor_intCast z
  · exact Int.ceil_le.2 (by exact_mod_cast hq)

theorem smoothGo_le (vw vh : ℤ) (hvw : 0 ≤ vw) (hvh : 0 ≤ vh) (alpha : ℚ)
    (ha0 : 0 ≤ alpha) (ha1 : alpha ≤ 1) :
    ∀ (sizes : List (ℤ × ℤ)) (ew eh : ℚ), ew ≤ (vw : ℚ) → eh ≤ (vh : ℚ) →
      (∀ p ∈ sizes, p.1 ≤ vw ∧ p.2 ≤ vh) →
      ∀ q ∈ smoothGo alpha ew eh sizes, q.1 ≤ vw ∧ q.2 ≤ vh := by
  intro sizes
  induction sizes with
  | nil =>
    intro ew eh _ _ _ q hq
    exact absurd hq (List.not_mem_nil q)
  | cons s rest ih =>
    intro ew eh hew heh hall q hq
    obtain ⟨hs1, hs2⟩ := hall s (List.mem_cons_self s rest)
    have hew' : alpha * (s.1 : ℚ) + (1 - alpha) * ew ≤ (vw : ℚ) := by
      have hc1 : (s.1 : ℚ) ≤ (vw : ℚ) := by exact_mod_cast hs1
      nlinarith
    have heh' : alpha * (s.2 : ℚ) + (1 - alpha) * eh ≤ (vh : ℚ) := by
      have hc2 : (s.2 : ℚ) ≤ (vh : ℚ) := by exact_mod_cast hs2
      nlinarith
    rw [show smoothGo alpha ew eh (s :: rest) =
        (pyInt (alpha * (s.1 : ℚ) + (1 - alpha) * ew),
         pyInt (alpha * (s.2 : ℚ) + (1 - alpha) * eh)) ::
          smoothGo alpha (alpha * (s.1 : ℚ) + (1 - alpha) * ew)
            (alpha * (s.2 : ℚ) + (1 - alpha) * eh) rest from by
      rw [smoothGo]] at hq
    rcases List.mem_cons.1 hq with rfl | hq
    · exact ⟨pyInt_le_int _ vw hew' hvw, pyInt_le_int _ vh heh' hvh⟩
    · exact ih _ _ hew' heh'
        (fun p hp => hall p (List.mem_cons_of_mem s hp)) q hq

theorem smooth_crop_sizes_le (vw vh sw : ℤ) (hvw : 0 ≤ vw) (hvh : 0 ≤ vh)
    (hsw : 1 ≤ sw) (sizes : List (ℤ × ℤ))
    (hall : ∀ p ∈ sizes, p.1 ≤ vw ∧ p.2 ≤ vh) :
    ∀ q ∈ smooth_crop_sizes sizes sw, q.1 ≤ vw ∧ q.2 ≤ vh := by
  rw [smooth_crop_sizes.eq_def]
  split
  · exact hall
  · match sizes, hall with
    | [], _ =>
      intro q hq
      exact absurd hq (List.not_mem_nil q)
    | s :: rest, hall =>
      have ha0 : (0 : ℚ) ≤ 2 / ((sw : ℚ) + 1) := by
        apply div_nonneg (by norm_num)
        have : (1 : ℚ) ≤ (sw : ℚ) := by exact_mod_cast hsw
        linarith
      have ha1 : 2 / ((sw : ℚ) + 1) ≤ 1 := by
        rw [div_le_one (by
          have : (1 : ℚ) ≤ (sw : ℚ) := by exact_mod_cast hsw
          linarith)]
        have : (1 : ℚ) ≤ (sw : ℚ) := by exact_mod_cast hsw
        linarith
      obtain ⟨hs1, hs2⟩ := hall s (List.mem_cons_self s rest)
      exact smoothGo_le vw vh hvw hvh _ ha0 ha1 (s :: rest) _ _
        (by exact_mod_cast hs1) (by exact_mod_cast hs2) hall

theorem sizeLookup_aux (f : ℤ) (l : List (ℤ × ℤ × ℤ)) (acc : Option (ℤ × ℤ))
    (s : ℤ × ℤ)
    (h : l.foldl (fun acc e => if e.1 = f then some e.2 else acc) acc =
      some s) :
    acc = some s ∨ ∃ e ∈ l, e.2 = s := by
  induction l generalizing acc with
  | nil => exact Or.inl h
  | cons d l ih =>
    rw [List.foldl_cons] at h
    rcases ih _ h with hacc | hmem
    · by_cases hd : d.1 = f
      · rw [if_pos hd] at hacc
        exact Or.inr ⟨d, List.mem_cons_self _ _, Option.some.inj hacc⟩
      · rw [if_neg hd] at hacc
        exact Or.inl hacc
    · obtain ⟨e, he, hes⟩ := hmem
      exact Or.inr ⟨e, List.mem_cons_of_mem d he, hes⟩

theorem sizeLookup_mem (sizes : List (ℤ × ℤ × ℤ)) (f : ℤ) (s : ℤ × ℤ)
    (h : sizeLookup sizes f = some s) : ∃ e ∈ sizes, e.2 = s := by
  rcases sizeLookup_aux f sizes none s h with hacc | hmem
  · exact absurd hacc (by simp)
  · exact hmem

theorem finalStep_bounds (coords : List Coord) (useAdaptive : Bool)
    (sizes : List (ℤ × ℤ × ℤ)) (cw ch vw vh : ℤ) (f : ℤ) (last : CropRect)
    (hvw : 0 ≤ vw) (hvh : 0 ≤ vh) (hcw : cw ≤ vw) (hch : ch ≤ vh)
    (hsz : ∀ e ∈ sizes, e.2.1 ≤ vw ∧ e.2.2 ≤ vh)
    (hlast : rectInBounds vw vh last) :
    rectInBounds vw vh
      (finalStep coords useAdaptive sizes cw ch vw vh f last) := by
  rw [finalStep]
  cases hd : dictLookup coords f with
  | none => exact hlast
  | some c =>
    simp only
    have hfix : rectInBounds vw vh
        ⟨(calculate_fixed_crop c.x c.y c.w c.h cw ch vw vh).1,
         (calculate_fixed_crop c.x c.y c.w c.h cw ch vw vh).2.1,
         (calculate_fixed_crop c.x c.y c.w c.h cw ch vw vh).2.2.1,
         (calculate_fixed_crop c.x c.y c.w c.h cw ch vw vh).2.2.2⟩ := by
      obtain ⟨h1, h2, h3, h4⟩ :=
        calculate_fixed_crop_bounds c.x c.y c.w c.h cw ch vw vh hcw hch
      obtain ⟨h5, h6⟩ := calculate_fixed_crop_size c.x c.y c.w c.h cw ch vw vh
      exact ⟨h1, h3, by rw [h5]; exact h2, by rw [h6]; exact h4⟩
    cases useAdaptive with
    | false =>
      rw [if_neg (by decide : ¬(false = true))]
      exact hfix
    | true =>
      rw [if_pos rfl]
      cases hs : sizeLookup sizes f with
      | none => exact hfix
      | some s =>
        obtain ⟨e, he, hes⟩ := sizeLookup_mem sizes f s hs
        obtain ⟨hs1, hs2⟩ := hsz e he
        rw [hes] at hs1 hs2
        refine ⟨?_, ?_, ?_, ?_⟩ <;> dsimp only <;> omega

theorem goFinal_bounds (coords : List Coord) (useAdaptive : Bool)
    (sizes : List (ℤ × ℤ × ℤ)) (cw ch vw vh : ℤ)
    (hvw : 0 ≤ vw) (hvh : 0 ≤ vh) (hcw : cw ≤ vw) (hch : ch ≤ vh)
    (hsz : ∀ e ∈ sizes, e.2.1 ≤ vw ∧ e.2.2 ≤ vh) :
    ∀ (n : ℕ) (f : ℤ) (last : CropRect), rectInBounds vw vh last →
      ∀ p ∈ goFinal coords useAdaptive sizes cw ch vw vh f n last,
        rectInBounds vw vh p := by
  intro n
  induction n with
  | zero =>
    intro f last _ p hp
    exact absurd hp (List.not_mem_nil p)
  | succ m ih =>
    intro f last hlast p hp
    rw [goFinal] at hp
    have hstep := finalStep_bounds coords useAdaptive sizes cw ch vw vh f
      last hvw hvh hcw hch hsz hlast
    rcases List.mem_cons.1 hp with rfl | hp
    · exact hstep
    · exact ih (f + 1) _ hstep p hp

/-- C1: every CropPlan emitted by the export loop of
crop_and_export_fixed_ratio — in fixed mode and in adaptive mode, and
including plans carried forward over frames with no tracked box —
satisfies `0 ≤ crop_x`, `0 ≤ crop_y`, `crop_x + crop_w ≤ video_width`
and `crop_y + crop_h ≤ video_height`, under the precondition that the
target crop dimensions fit the video after the one-time upfront scaling
and every input box has positive width and height (the bound clamps make
the invariant hold for boxes flush against every edge and corner). -/
theorem C1_crop_bounds (coords : List Coord) (r m : ℚ)
    (tw th cw ch vw vh sw : ℤ) (total : ℕ)
    (hvw : 0 ≤ vw) (hvh : 0 ≤ vh) (hcw : cw ≤ vw) (hch : ch ≤ vh)
    (htw : tw ≤ vw) (hth : th ≤ vh) (hsw : 1 ≤ sw)
    (hbox : ∀ c ∈ coords, 0 < c.w ∧ 0 < c.h) :
    ∀ (useAdaptive : Bool),
      ∀ p ∈ finalExportPlans coords useAdaptive r m tw th cw ch vw vh sw
        total, rectInBounds vw vh p := by
  intro useAdaptive
  rw [finalExportPlans]
  intro p hp
  have hraw : ∀ q ∈ coords.map fun c =>
      ((calculate_adaptive_crop c.x c.y c.w c.h r vw vh m tw th).2.2.1,
       (calculate_adaptive_crop c.x c.y c.w c.h r vw vh m tw th).2.2.2),
      q.1 ≤ vw ∧ q.2 ≤ vh := by
    intro q hq
    obtain ⟨c, _, rfl⟩ := List.mem_map.1 hq
    exact adaptiveSize_le r vw vh m tw th c.w c.h
  have hsz : ∀ e ∈ (coords.map (·.frame)).zip
      (smooth_crop_sizes (coords.map fun c =>
        ((calculate_adaptive_crop c.x c.y c.w c.h r vw vh m tw th).2.2.1,
         (calculate_adaptive_crop c.x c.y c.w c.h r vw vh m tw th).2.2.2))
        sw),
      e.2.1 ≤ vw ∧ e.2.2 ≤ vh := by
    intro e he
    have hmem := (List.mem_zip he).2
    exact smooth_crop_sizes_le vw vh sw hvw hvh hsw _ hraw e.2 hmem
  have hinit : rectInBounds vw vh
      ⟨(calculate_fixed_crop (getBox coords (minFrame coords)).x
          (getBox coords (minFrame coords)).y
          (getBox coords (minFrame coords)).w
          (getBox coords (minFrame coords)).h cw ch vw vh).1,
       (calculate_fixed_crop (getBox coords (minFrame coords)).x
          (getBox coords (minFrame coords)).y
          (getBox coords (minFrame coords)).w
          (getBox coords (minFrame coords)).h cw ch vw vh).2.1, cw, ch⟩ := by
    obtain ⟨h1, h2, h3, h4⟩ := calculate_fixed_crop_bounds
      (getBox coords (minFrame coords)).x (getBox coords (minFrame coords)).y
      (getBox coords (minFrame coords)).w (getBox coords (minFrame coords)).h
      cw ch vw vh hcw hch
    exact ⟨h1, h3, h2, h4⟩
  exact goFinal_bounds coords useAdaptive _ cw ch vw vh hvw hvh hcw hch hsz
    total 1 _ hinit p hp

theorem C1_witness :
    ((0 : ℤ) ≤ 1920) ∧ ((0 : ℤ) ≤ 1080) ∧ ((100 : ℤ) ≤ 1920) ∧
    ((125 : ℤ) ≤ 1080) ∧ ((1 : ℤ) ≤ 15) ∧
    (∀ p ∈ finalExportPlans [⟨1, 0, 0, 10, 10⟩, ⟨2, 1900, 1060, 30, 15⟩]
        true (4 / 5) (3 / 2) 100 125 100 125 1920 1080 15 4,
      rectInBounds 1920 1080 p) ∧
    (∀ p ∈ finalExportPlans [⟨1, 0, 0, 10, 10⟩, ⟨2, 1900, 1060, 30, 15⟩]
        false (4 / 5) (3 / 2) 100 125 100 125 1920 1080 15 4,
      rectInBounds 1920 1080 p) :=
  ⟨by decide, by decide, by decide, by decide, by decide,
   C1_crop_bounds [⟨1, 0, 0, 10, 10⟩, ⟨2, 1900, 1060, 30, 15⟩] (4 / 5) (3 / 2)
     100 125 100 125 1920 1080 15 4 (by decide) (by decide) (by decide)
     (by decide) (by decide) (by decide) (by decide) (by decide) true,
   C1_crop_bounds [⟨1, 0, 0, 10, 10⟩, ⟨2, 1900, 1060, 30, 15⟩] (4 / 5) (3 / 2)
     100 125 100 125 1920 1080 15 4 (by decide) (by decide) (by decide)
     (by decide) (by decide) (by decide) (by decide) (by decide) false⟩

theorem pyInt_of_nonneg (q : ℚ) (h : 0 ≤ q) : pyInt q = ⌊q⌋ := by
  rw [pyInt, if_pos h]

theorem floorW (r : ℚ) (hr1 : 1 / 2 ≤ r) (hr2 : r ≤ 2) (cwq : ℚ)
    (hcw : 1080 * r ≤ cwq) :
    (1080 : ℤ) ≤ ⌊cwq / r⌋ ∧
    (r - (1 + r) / 1080) * ((⌊cwq / r⌋ : ℤ) : ℚ) ≤ cwq ∧
    cwq ≤ (r + (1 + r) / 1080) * ((⌊cwq / r⌋ : ℤ) : ℚ) := by
  have hrpos : (0 : ℚ) < r := by linarith
  have h1080 : (1080 : ℚ) ≤ cwq / r := (le_div_iff₀ hrpos).2 hcw
  have hfl : ((⌊cwq / r⌋ : ℤ) : ℚ) ≤ cwq / r := Int.floor_le _
  have hfg : cwq / r - 1 < ((⌊cwq / r⌋ : ℤ) : ℚ) := Int.sub_one_lt_floor _
  have hF : (1080 : ℤ) ≤ ⌊cwq / r⌋ := Int.le_floor.2 (by exact_mod_cast h1080)
  have hFq : (1080 : ℚ) ≤ ((⌊cwq / r⌋ : ℤ) : ℚ) := by exact_mod_cast hF
  refine ⟨hF, ?_, ?_⟩
  · have h1 : ((⌊cwq / r⌋ : ℤ) : ℚ) * r ≤ cwq := (le_div_iff₀ hrpos).1 hfl
    nlinarith [mul_nonneg (by linarith : (0 : ℚ) ≤ (1 + r) / 1080)
      (by linarith : (0 : ℚ) ≤ ((⌊cwq / r⌋ : ℤ) : ℚ))]
  · have h2a : cwq / r < ((⌊cwq / r⌋ : ℤ) : ℚ) + 1 := by linarith
    have h2 : cwq < (((⌊cwq / r⌋ : ℤ) : ℚ) + 1) * r := (div_lt_iff₀ hrpos).1 h2a
    nlinarith [hFq, hr1, hr2]

theorem floorH (r : ℚ) (hr1 : 1 / 2 ≤ r) (hr2 : r ≤ 2) (chq : ℚ)
    (hch : 1080 ≤ chq) :
    (r - (1 + r) / 1080) * chq ≤ ((⌊chq * r⌋ : ℤ) : ℚ) ∧
    ((⌊chq * r⌋ : ℤ) : ℚ) ≤ (r + (1 + r) / 1080) * chq := by
  have hfl : ((⌊chq * r⌋ : ℤ) : ℚ) ≤ chq * r := Int.floor_le _
  have hfg : chq * r - 1 < ((⌊chq * r⌋ : ℤ) : ℚ) := Int.sub_one_lt_floor _
  constructor
  · nlinarith [hch, hr1, hr2]
  · nlinarith [hch, hr1, hr2]

theorem adaptStage1_props (r : ℚ) (tw th : ℤ) (hr1 : 1 / 2 ≤ r)
    (hr2 : r ≤ 2) (hth : (1080 : ℤ) ≤ th)
    (htw : (1080 : ℚ) * r ≤ (tw : ℚ)) (m : ℚ) (w h : ℤ) :
    (1080 : ℤ) ≤ (adaptStage1 r tw th m w h).2 ∧
    (r - (1 + r) / 1080) * ((adaptStage1 r tw th m w h).2 : ℚ) ≤
      ((adaptStage1 r tw th m w h).1 : ℚ) ∧
    ((adaptStage1 r tw th m w h).1 : ℚ) ≤
      (r + (1 + r) / 1080) * ((adaptStage1 r tw th m w h).2 : ℚ) := by
  have hrpos : (0 : ℚ) < r := by linarith
  rw [adaptStage1]
  have hrwq : (1080 : ℚ) * r ≤ ((max (pyInt ((w : ℚ) * m)) tw : ℤ) : ℚ) :=
    le_trans htw (by exact_mod_cast le_max_right (pyInt ((w : ℚ) * m)) tw)
  have hrhz : (1080 : ℤ) ≤ max (pyInt ((h : ℚ) * m)) th :=
    le_trans hth (le_max_right (pyInt ((h : ℚ) * m)) th)
  have hrhq : (1080 : ℚ) ≤ ((max (pyInt ((h : ℚ) * m)) th : ℤ) : ℚ) := by
    exact_mod_cast hrhz
  split_ifs with hc
  · have hpos : (0 : ℚ) ≤ ((max (pyInt ((w : ℚ) * m)) tw : ℤ) : ℚ) / r := by
      apply div_nonneg _ (le_of_lt hrpos)
      nlinarith
    rw [pyInt_of_nonneg _ hpos]
    dsimp only
    exact floorW r hr1 hr2 _ hrwq
  · have hpos : (0 : ℚ) ≤ ((max (pyInt ((h : ℚ) * m)) th : ℤ) : ℚ) * r := by
      apply mul_nonneg _ (le_of_lt hrpos)
      linarith
    rw [pyInt_of_nonneg _ hpos]
    dsimp only
    obtain ⟨g1, g2⟩ := floorH r hr1 hr2 _ hrhq
    exact ⟨hrhz, g1, g2⟩

theorem adaptClampW_props (r : ℚ) (tw vw : ℤ) (hr1 : 1 / 2 ≤ r)
    (hr2 : r ≤ 2) (htw : (1080 : ℚ) * r ≤ (tw : ℚ)) (hvw : tw ≤ vw)
    (p : ℤ × ℤ)
    (hp : (1080 : ℤ) ≤ p.2 ∧
      (r - (1 + r) / 1080) * (p.2 : ℚ) ≤ (p.1 : ℚ) ∧
      (p.1 : ℚ) ≤ (r + (1 + r) / 1080) * (p.2 : ℚ)) :
    ((1080 : ℤ) ≤ (adaptClampW r vw p).2 ∧
     (r - (1 + r) / 1080) * ((adaptClampW r vw p).2 : ℚ) ≤
       ((adaptClampW r vw p).1 : ℚ) ∧
     ((adaptClampW r vw p).1 : ℚ) ≤
       (r + (1 + r) / 1080) * ((adaptClampW r vw p).2 : ℚ)) ∧
    (adaptClampW r vw p).1 ≤ vw := by
  have hrpos : (0 : ℚ) < r := by linarith
  rw [adaptClampW]
  split_ifs with hc
  · have hvwq : (1080 : ℚ) * r ≤ ((vw : ℤ) : ℚ) := by
      refine le_trans htw ?_
      exact_mod_cast hvw
    have hpos : (0 : ℚ) ≤ ((vw : ℤ) : ℚ) / r := by
      apply div_nonneg _ (le_of_lt hrpos)
      nlinarith
    rw [pyInt_of_nonneg _ hpos]
    dsimp only
    exact ⟨floorW r hr1 hr2 _ hvwq, le_rfl⟩
  · exact ⟨hp, by omega⟩

theorem adaptClampH_props (r : ℚ) (th vw vh : ℤ) (hr1 : 1 / 2 ≤ r)
    (hr2 : r ≤ 2) (hth : (1080 : ℤ) ≤ th) (hvh : th ≤ vh)
    (hwide : (vh : ℚ) * r ≤ (vw : ℚ)) (p : ℤ × ℤ)
    (hp : ((1080 : ℤ) ≤ p.2 ∧
      (r - (1 + r) / 1080) * (p.2 : ℚ) ≤ (p.1 : ℚ) ∧
      (p.1 : ℚ) ≤ (r + (1 + r) / 1080) * (p.2 : ℚ)) ∧ p.1 ≤ vw) :
    ((1080 : ℤ) ≤ (adaptClampH r vh p).2 ∧
     (r - (1 + r) / 1080) * ((adaptClampH r vh p).2 : ℚ) ≤
       ((adaptClampH r vh p).1 : ℚ) ∧
     ((adaptClampH r vh p).1 : ℚ) ≤
       (r + (1 + r) / 1080) * ((adaptClampH r vh p).2 : ℚ)) ∧
    (adaptClampH r vh p).1 ≤ vw ∧ (adaptClampH r vh p).2 ≤ vh := by
  have hrpos : (0 : ℚ) < r := by linarith
  rw [adaptClampH]
  split_ifs with hc
  · have hvhz : (1080 : ℤ) ≤ vh := le_trans hth hvh
    have hvhq : (1080 : ℚ) ≤ ((vh : ℤ) : ℚ) := by exact_mod_cast hvhz
    have hpos : (0 : ℚ) ≤ ((vh : ℤ) : ℚ) * r := by
      apply mul_nonneg _ (le_of_lt hrpos)
      linarith
    rw [pyInt_of_nonneg _ hpos]
    dsimp only
    obtain ⟨g1, g2⟩ := floorH r hr1 hr2 _ hvhq
    refine ⟨⟨hvhz, g1, g2⟩, ?_, le_rfl⟩
    have hfl : ((⌊((vh : ℤ) : ℚ) * r⌋ : ℤ) : ℚ) ≤ ((vh : ℤ) : ℚ) * r :=
      Int.floor_le _
    have : ((⌊((vh : ℤ) : ℚ) * r⌋ : ℤ) : ℚ) ≤ ((vw : ℤ) : ℚ) :=
      le_trans hfl hwide
    exact_mod_cast this
  · exact ⟨hp.1, hp.2, by omega⟩

theorem adaptTolerance_skip (r : ℚ) (vw vh : ℤ) (hr1 : 1 / 2 ≤ r)
    (hr2 : r ≤ 2) (p : ℤ × ℤ)
    (hp : (1080 : ℤ) ≤ p.2 ∧
      (r - (1 + r) / 1080) * (p.2 : ℚ) ≤ (p.1 : ℚ) ∧
      (p.1 : ℚ) ≤ (r + (1 + r) / 1080) * (p.2 : ℚ)) :
    adaptTolerance r vw vh p = p := by
  have hchq : (1080 : ℚ) ≤ (p.2 : ℚ) := by exact_mod_cast hp.1
  have hpos : (0 : ℚ) < (p.2 : ℚ) := by linarith
  have hub : (p.1 : ℚ) / (p.2 : ℚ) ≤ r + (1 + r) / 1080 :=
    (div_le_iff₀ hpos).2 (by linarith [hp.2.2])
  have hlb : r - (1 + r) / 1080 ≤ (p.1 : ℚ) / (p.2 : ℚ) :=
    (le_div_iff₀ hpos).2 (by linarith [hp.2.1])
  have he : (1 + r) / 1080 ≤ 1 / 100 := by
    rw [div_le_div_iff (by norm_num) (by norm_num)]
    linarith
  rw [adaptTolerance, if_neg]
  exact not_lt.2 (abs_le.2 ⟨by linarith, by linarith⟩)

theorem adaptiveSize_props (r : ℚ) (tw th vw vh : ℤ) (hr1 : 1 / 2 ≤ r)
    (hr2 : r ≤ 2) (hth : (1080 : ℤ) ≤ th)
    (htw : (1080 : ℚ) * r ≤ (tw : ℚ)) (hvw : tw ≤ vw) (hvh : th ≤ vh)
    (hwide : (vh : ℚ) * r ≤ (vw : ℚ)) (m : ℚ) (w h : ℤ) :
    (1080 : ℤ) ≤ (adaptiveSize r vw vh m tw th w h).2 ∧
    (r - (1 + r) / 1080) * ((adaptiveSize r vw vh m tw th w h).2 : ℚ) ≤
      ((adaptiveSize r vw vh m tw th w h).1 : ℚ) ∧
    ((adaptiveSize r vw vh m tw th w h).1 : ℚ) ≤
      (r + (1 + r) / 1080) * ((adaptiveSize r vw vh m tw th w h).2 : ℚ) := by
  have h1 := adaptStage1_props r tw th hr1 hr2 hth htw m w h
  have h2 := adaptClampW_props r tw vw hr1 hr2 htw hvw _ h1
  have h3 := adaptClampH_props r th vw vh hr1 hr2 hth hvh hwide _ h2
  rw [adaptiveSize]
  have hmin : (min (adaptClampH r vh (adaptClampW r vw
        (adaptStage1 r tw th m w h))).1 vw,
      min (adaptClampH r vh (adaptClampW r vw
        (adaptStage1 r tw th m w h))).2 vh) =
      adaptClampH r vh (adaptClampW r vw (adaptStage1 r tw th m w h)) := by
    rw [min_eq_left h3.2.1, min_eq_left h3.2.2]
  rw [hmin, adaptTolerance_skip r vw vh hr1 hr2 _ h3.1]
  exact h3.1

theorem ratio_close (r : ℚ) (hr1 : 1 / 2 ≤ r) (hr2 : r ≤ 2) (p : ℤ × ℤ)
    (hp : (1080 : ℤ) ≤ p.2 ∧
      (r - (1 + r) / 1080) * (p.2 : ℚ) ≤ (p.1 : ℚ) ∧
      (p.1 : ℚ) ≤ (r + (1 + r) / 1080) * (p.2 : ℚ)) :
    |(p.1 : ℚ) / (p.2 : ℚ) - r| ≤ 1 / 100 := by
  have hchq : (1080 : ℚ) ≤ (p.2 : ℚ) := by exact_mod_cast hp.1
  have hpos : (0 : ℚ) < (p.2 : ℚ) := by linarith
  have hub : (p.1 : ℚ) / (p.2 : ℚ) ≤ r + (1 + r) / 1080 :=
    (div_le_iff₀ hpos).2 (by linarith [hp.2.2])
  have hlb : r - (1 + r) / 1080 ≤ (p.1 : ℚ) / (p.2 : ℚ) :=
    (le_div_iff₀ hpos).2 (by linarith [hp.2.1])
  have he : (1 + r) / 1080 ≤ 1 / 100 := by
    rw [div_le_div_iff (by norm_num) (by norm_num)]
    linarith
  exact abs_le.2 ⟨by linarith, by linarith⟩

theorem smoothGo_ratio (r : ℚ) (hr1 : 1 / 2 ≤ r) (hr2 : r ≤ 2) (alpha : ℚ)
    (ha0 : 0 ≤ alpha) (ha1 : alpha ≤ 1) :
    ∀ (sizes : List (ℤ × ℤ)) (ew eh : ℚ),
      (1080 : ℚ) ≤ eh →
      (r - (1 + r) / 1080) * eh ≤ ew →
      ew ≤ (r + (1 + r) / 1080) * eh →
      (∀ p ∈ sizes, (1080 : ℤ) ≤ p.2 ∧
        (r - (1 + r) / 1080) * (p.2 : ℚ) ≤ (p.1 : ℚ) ∧
        (p.1 : ℚ) ≤ (r + (1 + r) / 1080) * (p.2 : ℚ)) →
      ∀ q ∈ smoothGo alpha ew eh sizes,
        |(q.1 : ℚ) / (q.2 : ℚ) - r| ≤ 1 / 100 := by
  intro sizes
  induction sizes with
  | nil =>
    intro ew eh _ _ _ _ q hq
    exact absurd hq (List.not_mem_nil q)
  | cons s rest ih =>
    intro ew eh heh hlo hhi hall q hq
    obtain ⟨hs2z, hslo, hshi⟩ := hall s (List.mem_cons_self s rest)
    have hs2q : (1080 : ℚ) ≤ (s.2 : ℚ) := by exact_mod_cast hs2z
    have heh' : (1080 : ℚ) ≤ alpha * (s.2 : ℚ) + (1 - alpha) * eh := by
      nlinarith
    have hlo' : (r - (1 + r) / 1080) * (alpha * (s.2 : ℚ) + (1 - alpha) * eh) ≤
        alpha * (s.1 : ℚ) + (1 - alpha) * ew := by
      nlinarith [mul_le_mul_of_nonneg_left hslo ha0,
        mul_le_mul_of_nonneg_left hlo (by linarith : (0 : ℚ) ≤ 1 - alpha)]
    have hhi' : alpha * (s.1 : ℚ) + (1 - alpha) * ew ≤
        (r + (1 + r) / 1080) * (alpha * (s.2 : ℚ) + (1 - alpha) * eh) := by
      nlinarith [mul_le_mul_of_nonneg_left hshi ha0,
        mul_le_mul_of_nonneg_left hhi (by linarith : (0 : ℚ) ≤ 1 - alpha)]
    rw [show smoothGo alpha ew eh (s :: rest) =
        (pyInt (alpha * (s.1 : ℚ) + (1 - alpha) * ew),
         pyInt (alpha * (s.2 : ℚ) + (1 - alpha) * eh)) ::
          smoothGo alpha (alpha * (s.1 : ℚ) + (1 - alpha) * ew)
            (alpha * (s.2 : ℚ) + (1 - alpha) * eh) rest from by
      rw [smoothGo]] at hq
    rcases List.mem_cons.1 hq with rfl | hq
    · have hewpos : (0 : ℚ) ≤ alpha * (s.1 : ℚ) + (1 - alpha) * ew := by
        nlinarith
      have hehpos : (0 : ℚ) ≤ alpha * (s.2 : ℚ) + (1 - alpha) * eh := by
        linarith
      rw [pyInt_of_nonneg _ hewpos, pyInt_of_nonneg _ hehpos]
      dsimp only
      set A := ⌊alpha * (s.1 : ℚ) + (1 - alpha) * ew⌋ with hA
      set B := ⌊alpha * (s.2 : ℚ) + (1 - alpha) * eh⌋ with hB
      have hBz : (1080 : ℤ) ≤ B := Int.le_floor.2 (by exact_mod_cast heh')
      have hBq : (1080 : ℚ) ≤ ((B : ℤ) : ℚ) := by exact_mod_cast hBz
      have hBpos : (0 : ℚ) < ((B : ℤ) : ℚ) := by linarith
      have hBle : ((B : ℤ) : ℚ) ≤ alpha * (s.2 : ℚ) + (1 - alpha) * eh :=
        Int.floor_le _
      have hBgt : alpha * (s.2 : ℚ) + (1 - alpha) * eh < ((B : ℤ) : ℚ) + 1 :=
        Int.lt_floor_add_one _
      have hAle : ((A : ℤ) : ℚ) ≤ alpha * (s.1 : ℚ) + (1 - alpha) * ew :=
        Int.floor_le _
      have hAgt : alpha * (s.1 : ℚ) + (1 - alpha) * ew - 1 < ((A : ℤ) : ℚ) :=
        Int.sub_one_lt_floor _
      have hkey : (0 : ℚ) ≤ (((B : ℤ) : ℚ) - 1080) * (1 / 100 - (1 + r) / 1080) :=
        mul_nonneg (by linarith) (by
          rw [sub_nonneg, div_le_div_iff (by norm_num) (by norm_num)]
          linarith)
      rw [abs_le]
      constructor
      · have hAlow : (r - (1 + r) / 1080) * (((B : ℤ) : ℚ)) - 1 ≤ ((A : ℤ) : ℚ) := by
          have h1 : (r - (1 + r) / 1080) * (((B : ℤ) : ℚ)) ≤
              (r - (1 + r) / 1080) * (alpha * (s.2 : ℚ) + (1 - alpha) * eh) := by
            apply mul_le_mul_of_nonneg_left hBle
            rw [sub_nonneg, div_le_iff₀ (by norm_num : (0 : ℚ) < 1080)]
            linarith
          linarith
        have : (r - 1 / 100) * (((B : ℤ) : ℚ)) ≤ ((A : ℤ) : ℚ) := by
          nlinarith [hkey]
        have hgoal : r - 1 / 100 ≤ ((A : ℤ) : ℚ) / ((B : ℤ) : ℚ) :=
          (le_div_iff₀ hBpos).2 this
        linarith [hgoal]
      · have hAhigh : ((A : ℤ) : ℚ) ≤ (r + (1 + r) / 1080) * (((B : ℤ) : ℚ) + 1) := by
          have h1 : (r + (1 + r) / 1080) * (alpha * (s.2 : ℚ) + (1 - alpha) * eh) ≤
              (r + (1 + r) / 1080) * (((B : ℤ) : ℚ) + 1) := by
            apply mul_le_mul_of_nonneg_left (le_of_lt hBgt)
            positivity
          linarith
        have : ((A : ℤ) : ℚ) ≤ (r + 1 / 100) * (((B : ℤ) : ℚ)) := by
          nlinarith [hkey]
        have hgoal : ((A : ℤ) : ℚ) / ((B : ℤ) : ℚ) ≤ r + 1 / 100 :=
          (div_le_iff₀ hBpos).2 this
        linarith [hgoal]
    · exact ih _ _ heh' hlo' hhi'
        (fun p hp => hall p (List.mem_cons_of_mem s hp)) q hq

theorem smooth_crop_sizes_ratio (r : ℚ) (hr1 : 1 / 2 ≤ r) (hr2 : r ≤ 2)
    (sw : ℤ) (hsw : 1 ≤ sw) (sizes : List (ℤ × ℤ))
    (hall : ∀ p ∈ sizes, (1080 : ℤ) ≤ p.2 ∧
      (r - (1 + r) / 1080) * (p.2 : ℚ) ≤ (p.1 : ℚ) ∧
      (p.1 : ℚ) ≤ (r + (1 + r) / 1080) * (p.2 : ℚ)) :
    ∀ q ∈ smooth_crop_sizes sizes sw,
      |(q.1 : ℚ) / (q.2 : ℚ) - r| ≤ 1 / 100 := by
  rw [smooth_crop_sizes.eq_def]
  split
  · intro q hq
    exact ratio_close r hr1 hr2 q (hall q hq)
  · match sizes, hall with
    | [], _ =>
      intro q hq
      exact absurd hq (List.not_mem_nil q)
    | s :: rest, hall =>
      have hswq : (1 : ℚ) ≤ (sw : ℚ) := by exact_mod_cast hsw
      have ha0 : (0 : ℚ) ≤ 2 / ((sw : ℚ) + 1) :=
        div_nonneg (by norm_num) (by linarith)
      have ha1 : 2 / ((sw : ℚ) + 1) ≤ 1 := by
        rw [div_le_one (by linarith)]
        linarith
      obtain ⟨h1, h2, h3⟩ := hall s (List.mem_cons_self s rest)
      exact smoothGo_ratio r hr1 hr2 _ ha0 ha1 (s :: rest) _ _
        (by exact_mod_cast h1) h2 h3 hall

/-- C4 (amended): in fixed mode the emitted crop rectangle is exactly
`target_w × target_h`, so its ratio is within ±0.01 of the configured
ratio whenever the target dimensions themselves are (true of all four
presets); and in adaptive mode, after the temporal EMA smoothing of crop
sizes and before the final resize, every emitted crop size is within
±0.01 of the configured ratio — provided the configuration is moderate:
`1/2 ≤ ratio ≤ 2`, `target_h ≥ 1080`, `target_w ≥ 1080 · ratio` (all four
presets qualify), the target fits the video, and the video is at least
`ratio` times as wide as it is tall.  Extreme custom ratios violate the
tolerance (counterexample: `13:1`), so the unrestricted claim fails. -/
theorem C4_aspect_tolerance_amended (r : ℚ) (tw th vw vh sw : ℤ)
    (hr1 : 1 / 2 ≤ r) (hr2 : r ≤ 2)
    (hth : (1080 : ℤ) ≤ th) (htw : (1080 : ℚ) * r ≤ (tw : ℚ))
    (hvw : tw ≤ vw) (hvh : th ≤ vh)
    (hwide : (vh : ℚ) * r ≤ (vw : ℚ)) (hsw : 1 ≤ sw)
    (hfixr : |(tw : ℚ) / (th : ℚ) - r| ≤ 1 / 100) :
    (∀ x y w h : ℤ,
       (calculate_fixed_crop x y w h tw th vw vh).2.2 = (tw, th) ∧
       |((calculate_fixed_crop x y w h tw th vw vh).2.2.1 : ℚ) /
          ((calculate_fixed_crop x y w h tw th vw vh).2.2.2 : ℚ) - r| ≤
         1 / 100) ∧
    (∀ (m : ℚ) (coords : List Coord),
       ∀ q ∈ smooth_crop_sizes (coords.map fun c =>
           ((calculate_adaptive_crop c.x c.y c.w c.h r vw vh m tw th).2.2.1,
            (calculate_adaptive_crop c.x c.y c.w c.h r vw vh m tw th).2.2.2))
           sw,
         |(q.1 : ℚ) / (q.2 : ℚ) - r| ≤ 1 / 100) := by
  constructor
  · intro x y w h
    refine ⟨rfl, ?_⟩
    show |(tw : ℚ) / (th : ℚ) - r| ≤ 1 / 100
    exact hfixr
  · intro m coords q hq
    apply smooth_crop_sizes_ratio r hr1 hr2 sw hsw _ _ q hq
    intro p hp
    obtain ⟨c, _, rfl⟩ := List.mem_map.1 hp
    exact adaptiveSize_props r tw th vw vh hr1 hr2 hth htw hvw hvh hwide m
      c.w c.h

theorem parse131 : parse_aspect_ratio ( "13:1".data) = some (1920, 147, 13) := by
  rw [parse_aspect_ratio]
  rw [if_neg (by decide), if_neg (by decide), if_neg (by decide),
    if_neg (by decide), if_neg (by decide), if_pos (by decide)]
  rw [show pySplit (Char.ofNat 58) ( "13:1".data) = [ "13".data, "1".data]
    from by decide]
  dsimp only
  rw [show pyParseInt ( "13".data) = some 13 from by decide,
    show pyParseInt ( "1".data) = some 1 from by decide]
  dsimp only
  rw [if_neg (by decide : ¬(1 : ℤ) = 0)]
  rw [if_neg (by norm_num : ¬(((13 : ℤ) : ℚ) / ((1 : ℤ) : ℚ) < 1))]
  norm_num [pyInt]

theorem plans131 :
    finalExportPlans [⟨1, 0, 0, 10, 10⟩] false 13 (3 / 2) 1920 147 1920 147
      4000 3000 15 1 = [⟨0, 0, 1920, 147⟩] := by
  decide

/-- C4 (counterexample): with the custom aspect ratio `13:1` the parser
configures target dimensions 1920 × 147 with stored ratio 13; they fit a
4000 × 3000 video, yet the fixed-mode export loop emits the crop
rectangle 1920 × 147 whose ratio 1920/147 ≈ 13.061 differs from the
configured ratio 13 by more than 0.01. -/
theorem C4_counterexample :
    parse_aspect_ratio ( "13:1".data) = some (1920, 147, 13) ∧
    (1920 : ℤ) ≤ 4000 ∧ (147 : ℤ) ≤ 3000 ∧
    finalExportPlans [⟨1, 0, 0, 10, 10⟩] false 13 (3 / 2) 1920 147 1920 147
      4000 3000 15 1 = [⟨0, 0, 1920, 147⟩] ∧
    ¬(|(1920 : ℚ) / 147 - 13| ≤ 1 / 100) :=
  ⟨parse131, by decide, by decide, plans131, by
    rw [abs_le]
    intro hcontra
    have := hcontra.2
    norm_num at this⟩

theorem C4_witness :
    (∀ x y w h : ℤ,
       (calculate_fixed_crop x y w h 1080 1350 1920 1350).2.2 =
         (1080, 1350) ∧
       |((calculate_fixed_crop x y w h 1080 1350 1920 1350).2.2.1 : ℚ) /
          ((calculate_fixed_crop x y w h 1080 1350 1920 1350).2.2.2 : ℚ) -
          4 / 5| ≤ 1 / 100) ∧
    (∀ (m : ℚ) (coords : List Coord),
       ∀ q ∈ smooth_crop_sizes (coords.map fun c =>
           ((calculate_adaptive_crop c.x c.y c.w c.h (4 / 5) 1920 1350 m
               1080 1350).2.2.1,
            (calculate_adaptive_crop c.x c.y c.w c.h (4 / 5) 1920 1350 m
               1080 1350).2.2.2)) 30,
         |(q.1 : ℚ) / (q.2 : ℚ) - 4 / 5| ≤ 1 / 100) :=
  C4_aspect_tolerance_amended (4 / 5) 1080 1350 1920 1350 30
    (by norm_num) (by norm_num) (by decide) (by norm_num) (by decide)
    (by decide) (by norm_num) (by decide)
    (by
      rw [abs_le]
      constructor <;> norm_num)
